import Mathlib

set_option maxHeartbeats 1000000

/-
Verification of extapi_core.py (schema index builder, lookup service and
heuristic query router) against its specification.  The Python code is
shallowly embedded: JSON records become structures with Option fields for
possibly-missing keys, Python dicts become insertion-ordered association
lists with Python dict semantics, and each regular expression of the router
is embedded as the deterministic scanner it denotes (every character class
of those patterns is disjoint from its neighbour, so the greedy match never
backtracks).  Character classes are the ASCII readings of the patterns;
Python `re` on str is Unicode-aware, which coincides on the ASCII inputs
treated here.
-/

/- ----------------------------------------------------------------- -/
/- Characters and strings: Python str.lower, `in`, and the character  -/
/- classes of the router's regular expressions.                       -/
/- ----------------------------------------------------------------- -/

def lowerCh (c : Char) : Char :=
  if 65 ≤ c.toNat && c.toNat ≤ 90 then Char.ofNat (c.toNat + 32) else c

/-- Embedding of Python str.lower (ASCII range). -/
def pyLower (s : String) : String := String.mk (s.data.map lowerCh)

def isWordCh (c : Char) : Bool :=
  (65 ≤ c.toNat && c.toNat ≤ 90) || (97 ≤ c.toNat && c.toNat ≤ 122) ||
  (48 ≤ c.toNat && c.toNat ≤ 57) || c.toNat == 95

def isLetterCh (c : Char) : Bool :=
  (65 ≤ c.toNat && c.toNat ≤ 90) || (97 ≤ c.toNat && c.toNat ≤ 122)

def isDigitCh (c : Char) : Bool := 48 ≤ c.toNat && c.toNat ≤ 57

def isSpaceCh (c : Char) : Bool :=
  c.toNat == 32 || c.toNat == 9 || c.toNat == 10 || c.toNat == 13 ||
  c.toNat == 11 || c.toNat == 12

def startsL : List Char → List Char → Bool
  | [], _ => true
  | _ :: _, [] => false
  | a :: as, b :: bs => (a == b) && startsL as bs

def hasSubstr (n : List Char) : List Char → Bool
  | [] => startsL n []
  | c :: t => startsL n (c :: t) || hasSubstr n t

/-- Embedding of Python `needle in haystack` on strings. -/
def pyIn (n h : String) : Bool := hasSubstr n.data h.data

/-- Case-insensitive literal match at the head (re.IGNORECASE, ASCII). -/
def ciStarts : List Char → List Char → Bool
  | [], _ => true
  | _ :: _, [] => false
  | a :: as, b :: bs => (lowerCh a == lowerCh b) && ciStarts as bs

def optWordCh : Option Char → Bool
  | none => false
  | some c => isWordCh c

/-- A regex word boundary sits between two positions of distinct wordness. -/
def wordBnd (a b : Option Char) : Bool := optWordCh a != optWordCh b

def lastTakenCh (nm r : List Char) (prev : Option Char) : Option Char :=
  match (r.take nm.length).getLast? with
  | some c => some c
  | none => prev

/-- One attempt of re.search with pattern backslash-b literal backslash-b
(IGNORECASE) at a fixed position: `prev` is the character just before the
position, `r` the rest of the haystack. -/
def matchWordHere (nm : List Char) (prev : Option Char) (r : List Char) : Bool :=
  ciStarts nm r && wordBnd prev r.head? &&
    wordBnd (lastTakenCh nm r prev) ((r.drop nm.length).head?)

def searchWordGo (nm : List Char) : Option Char → List Char → Bool
  | prev, [] => matchWordHere nm prev []
  | prev, c :: rest => matchWordHere nm prev (c :: rest) || searchWordGo nm (some c) rest

/-- re.search of a whole-word, case-insensitive literal (the pattern built in
ExtApi._extract_known). -/
def searchWordCI (nm q : List Char) : Bool := searchWordGo nm none q

/- Stable insertion sort by length, descending: the order produced by
Python sorted(names, key=len, reverse=True). -/

def insLenDesc (x : String) : List String → List String
  | [] => [x]
  | y :: ys => if x.length > y.length then x :: y :: ys else y :: insLenDesc x ys

def sortByLenDesc (l : List String) : List String :=
  l.foldl (fun acc x => insLenDesc x acc) []

/- The dotted-pair pattern of the router (route steps 1 and 4):
with spaces allowed around the dot and underscore allowed to open the
second group this is
  boundary ([A-Za-z][A-Za-z0-9_]*) spaces dot spaces ([a-zA-Z_]word*) boundary
and with both flags off it is the step-4 pattern
  boundary ([A-Za-z][A-Za-z0-9_]*) dot ([A-Za-z][A-Za-z0-9_]*) boundary.
All neighbouring classes are disjoint, so maximal munch is exact. -/

def dotPairAt (allowSpace underscoreSecond : Bool) (prev : Option Char)
    (r : List Char) : Option (List Char × List Char) :=
  match r with
  | [] => none
  | c :: _ =>
    if isLetterCh c && !optWordCh prev then
      let g1 := r.takeWhile isWordCh
      let r1 := r.dropWhile isWordCh
      let r2 := if allowSpace then r1.dropWhile isSpaceCh else r1
      match r2 with
      | '.' :: r3 =>
        let r4 := if allowSpace then r3.dropWhile isSpaceCh else r3
        match r4 with
        | d :: _ =>
          if isLetterCh d || (underscoreSecond && d == '_') then
            some (g1, r4.takeWhile isWordCh)
          else none
        | [] => none
      | _ => none
    else none

def dotPairSearch (allowSpace underscoreSecond : Bool) :
    Option Char → List Char → Option (List Char × List Char)
  | prev, [] => dotPairAt allowSpace underscoreSecond prev []
  | prev, c :: rest =>
    match dotPairAt allowSpace underscoreSecond prev (c :: rest) with
    | some g => some g
    | none => dotPairSearch allowSpace underscoreSecond (some c) rest

/- The hash pattern of route step 2: literal hash, spaces, optional colon
or equals, spaces, digits (applied to the lowercased query). -/

def hashNumAt (r : List Char) : Option (List Char) :=
  if startsL "hash".data r then
    let r1 := r.drop 4
    let r2 := r1.dropWhile isSpaceCh
    let r3 := match r2 with
      | ':' :: t => t
      | '=' :: t => t
      | _ => r2
    let r4 := r3.dropWhile isSpaceCh
    let ds := r4.takeWhile isDigitCh
    if ds.isEmpty then none else some ds
  else none

def hashNumSearch : List Char → Option (List Char)
  | [] => hashNumAt []
  | c :: t =>
    match hashNumAt (c :: t) with
    | some d => some d
    | none => hashNumSearch t

/- keyword-then-name: literal keyword (case-insensitive), one or more
spaces, then ([A-Za-z][A-Za-z0-9_]*) up to a boundary. -/

def kwNameAt (kw : List Char) (r : List Char) : Option (List Char) :=
  if ciStarts kw r then
    let r1 := r.drop kw.length
    match r1 with
    | s :: _ =>
      if isSpaceCh s then
        let r2 := r1.dropWhile isSpaceCh
        match r2 with
        | d :: _ => if isLetterCh d then some (r2.takeWhile isWordCh) else none
        | [] => none
      else none
    | [] => none
  else none

/-- route step 3, first pattern: boundary, builtin keyword, spaces, name. -/
def builtinAfterAt (prev : Option Char) (r : List Char) : Option (List Char) :=
  if !optWordCh prev then kwNameAt "builtin".data r else none

def builtinAfterSearch : Option Char → List Char → Option (List Char)
  | prev, [] => builtinAfterAt prev []
  | prev, c :: t =>
    match builtinAfterAt prev (c :: t) with
    | some g => some g
    | none => builtinAfterSearch (some c) t

/-- route step 3, second pattern: boundary, name, spaces, builtin keyword,
boundary. -/
def builtinBeforeAt (prev : Option Char) (r : List Char) : Option (List Char) :=
  match r with
  | [] => none
  | c :: _ =>
    if isLetterCh c && !optWordCh prev then
      let g := r.takeWhile isWordCh
      let r1 := r.dropWhile isWordCh
      match r1 with
      | s :: _ =>
        if isSpaceCh s then
          let r2 := r1.dropWhile isSpaceCh
          if ciStarts "builtin".data r2 then
            if !optWordCh ((r2.drop 7).head?) then some g else none
          else none
        else none
      | [] => none
    else none

def builtinBeforeSearch : Option Char → List Char → Option (List Char)
  | prev, [] => builtinBeforeAt prev []
  | prev, c :: t =>
    match builtinBeforeAt prev (c :: t) with
    | some g => some g
    | none => builtinBeforeSearch (some c) t

/-- route step 5: boundary, classe-or-class keyword (alternation tried in that
order), spaces, name.  The keyword starts with a word character so the
boundary is: previous character not a word character. -/
def classKwAt (prev : Option Char) (r : List Char) : Option (List Char) :=
  if !optWordCh prev then
    match kwNameAt "classe".data r with
    | some g => some g
    | none => kwNameAt "class".data r
  else none

def classKwSearch : Option Char → List Char → Option (List Char)
  | prev, [] => classKwAt prev []
  | prev, c :: t =>
    match classKwAt prev (c :: t) with
    | some g => some g
    | none => classKwSearch (some c) t

/-- route step 6: the first word token, pattern
boundary ([A-Za-z_]word*) boundary. -/
def firstWordAt (prev : Option Char) (r : List Char) : Option (List Char) :=
  match r with
  | [] => none
  | c :: _ =>
    if (isLetterCh c || c == '_') && !optWordCh prev then
      some (r.takeWhile isWordCh)
    else none

def firstWordSearch : Option Char → List Char → Option (List Char)
  | _, [] => none
  | prev, c :: t =>
    match firstWordAt prev (c :: t) with
    | some g => some g
    | none => firstWordSearch (some c) t

/- Python str.split on a dot. -/

def splitDotAux : List Char → List Char → List (List Char)
  | cur, [] => [cur.reverse]
  | cur, c :: t =>
    if c == '.' then cur.reverse :: splitDotAux [] t else splitDotAux (c :: cur) t

def pySplitDot (s : String) : List String := (splitDotAux [] s.data).map String.mk

/- ----------------------------------------------------------------- -/
/- Data model: the schema records exactly as extapi_core.py reads     -/
/- them.  Option marks a key the code reads with dict.get and         -/
/- distinguishes as possibly missing; a list the code normalises with -/
/- get(k, []) or [] is embedded as a plain list.                      -/
/- ----------------------------------------------------------------- -/

/-- A JSON type descriptor: either a plain string or a record holding a
type key (extapi_core handles both shapes). -/
inductive TypeDesc where
  | str (s : String)
  | dict (type : Option String)
deriving DecidableEq, Repr

structure ArgRec where
  type : Option TypeDesc
  name : Option String
  default_value : Option String
deriving DecidableEq, Repr

structure RetRec where
  type : Option TypeDesc
deriving DecidableEq, Repr

/-- hash_compatibility may be a list, a single scalar, or absent. -/
inductive HashCompat where
  | absent
  | scalar (h : Int)
  | list (hs : List Int)
deriving DecidableEq, Repr

structure MethodRec where
  name : Option String
  return_value : Option RetRec
  arguments : List ArgRec
  hash : Option Int
  hash_compatibility : HashCompat
  is_static : Option Bool
  is_const : Option Bool
  is_virtual : Option Bool
  is_vararg : Option Bool
deriving DecidableEq, Repr

structure EnumValRec where
  name : Option String
  value : Option Int
deriving DecidableEq, Repr

structure EnumRec where
  name : Option String
  values : List EnumValRec
deriving DecidableEq, Repr

structure PropRec where
  type : Option TypeDesc
  name : Option String
  getter : Option String
  setter : Option String
  index : Option Int
deriving DecidableEq, Repr

structure SignalRec where
  name : Option String
  arguments : List ArgRec
deriving DecidableEq, Repr

structure ConstRec where
  name : Option String
  value : Option Int
deriving DecidableEq, Repr

structure ClassRec where
  name : Option String
  api_type : Option String
  inherits : Option String
  is_instantiable : Option Bool
  is_refcounted : Option Bool
  methods : List MethodRec
  properties : List PropRec
  signals : List SignalRec
  constants : List ConstRec
  enums : List EnumRec
deriving DecidableEq, Repr

structure BMemberRec where
  name : Option String
  type : Option TypeDesc
deriving DecidableEq, Repr

structure BConstRec where
  name : Option String
  value : Option String
deriving DecidableEq, Repr

structure BCtorRec where
  index : Option Int
  arguments : List ArgRec
deriving DecidableEq, Repr

structure BOpRec where
  name : Option String
  right_type : Option String
  return_type : Option String
deriving DecidableEq, Repr

structure BMethRec where
  name : Option String
  return_type : Option String
  is_vararg : Option Bool
  arguments : List ArgRec
deriving DecidableEq, Repr

/-- A builtin_classes record.  The outer Option on the five section lists
records key presence (get_builtin includes a section only when the key is
present with a non-empty list).  indexing_return_type's outer Option is key
presence, the inner one value nullability. -/
structure BuiltinClassRec where
  name : Option String
  is_keyed : Option Bool
  has_destructor : Option Bool
  indexing_return_type : Option (Option String)
  members : Option (List BMemberRec)
  constants : Option (List BConstRec)
  constructors : Option (List BCtorRec)
  operators : Option (List BOpRec)
  methods : Option (List BMethRec)
deriving DecidableEq, Repr

structure OffsetEntry where
  member : Option String
  offset : Option Int
  meta : Option String
deriving DecidableEq, Repr

structure SizeItem where
  name : Option String
  size : Option Int
deriving DecidableEq, Repr

structure SizeConf where
  build_configuration : Option String
  sizes : List SizeItem
deriving DecidableEq, Repr

structure OffsetClassRec where
  name : Option String
  members : List OffsetEntry
deriving DecidableEq, Repr

structure OffsetConf where
  build_configuration : Option String
  classes : List OffsetClassRec
deriving DecidableEq, Repr

structure UtilityRec where
  name : Option String
  category : Option String
  return_type : Option String
  arguments : List ArgRec
deriving DecidableEq, Repr

structure GlobalConstantRec where
  name : Option String
  value : Option Int
deriving DecidableEq, Repr

/-- The loaded schema document, restricted to the collections the claims
exercise (singletons, native structures and the utility category index are
not consumed by any claim and are out of this embedding's scope). -/
structure Api where
  classes : List ClassRec
  global_enums : List EnumRec
  utility_functions : List UtilityRec
  builtin_class_sizes : List SizeConf
  builtin_class_member_offsets : List OffsetConf
  builtin_classes : List BuiltinClassRec
  global_constants : List GlobalConstantRec
deriving DecidableEq, Repr

/- ----------------------------------------------------------------- -/
/- Python dicts: insertion-ordered association lists with unique      -/
/- keys.  pyInsert is d[k] = v (replace in place, else append);       -/
/- pyInsertAppend is d.setdefault(k, []).append(x).                   -/
/- ----------------------------------------------------------------- -/

abbrev PyDict (V : Type) := List (String × V)

def pyGet {V : Type} : PyDict V → String → Option V
  | [], _ => none
  | (k, v) :: t, q => if k = q then some v else pyGet t q

def pyInsert {V : Type} : PyDict V → String → V → PyDict V
  | [], k, v => [(k, v)]
  | (k0, v0) :: t, k, v =>
    if k0 = k then (k0, v) :: t else (k0, v0) :: pyInsert t k v

def pyInsertAppend {V : Type} : PyDict (List V) → String → V → PyDict (List V)
  | [], k, x => [(k, [x])]
  | (k0, l0) :: t, k, x =>
    if k0 = k then (k0, l0 ++ [x]) :: t else (k0, l0) :: pyInsertAppend t k x

def dictKeys {V : Type} (d : PyDict V) : List String := d.map (fun kv => kv.1)

/- ----------------------------------------------------------------- -/
/- Index construction: ExtApi._build_indexes.                         -/
/- ----------------------------------------------------------------- -/

structure ClassIdx where
  classes_by_name : PyDict ClassRec
  methods_by_name : PyDict (List (String × MethodRec))
  methods_by_hash : PyDict (List (String × MethodRec))
  class_enums_qualname : PyDict EnumRec
deriving DecidableEq, Repr

/-- One method of the class loop: a record whose name is missing or empty is
skipped; the primary hash and every compatibility hash register the pair
under the hash's string representation. -/
def procMethod (cname : String)
    (st : PyDict (List (String × MethodRec)) × PyDict (List (String × MethodRec)))
    (m : MethodRec) :
    PyDict (List (String × MethodRec)) × PyDict (List (String × MethodRec)) :=
  match m.name with
  | none => st
  | some mn =>
    if mn = "" then st
    else
      let byName := pyInsertAppend st.1 mn (cname, m)
      let byHash1 :=
        match m.hash with
        | some hv => pyInsertAppend st.2 (toString hv) (cname, m)
        | none => st.2
      let byHash2 :=
        match m.hash_compatibility with
        | HashCompat.list hs =>
          hs.foldl (fun d hcv => pyInsertAppend d (toString hcv) (cname, m)) byHash1
        | HashCompat.scalar hv => pyInsertAppend byHash1 (toString hv) (cname, m)
        | HashCompat.absent => byHash1
      (byName, byHash2)

/-- One enum of the class loop: a truthy-named enum registers under the
qualified key className dot enumName. -/
def procEnum (cname : String) (d : PyDict EnumRec) (e : EnumRec) : PyDict EnumRec :=
  match e.name with
  | some en => if en = "" then d else pyInsert d (cname ++ "." ++ en) e
  | none => d

def processClass (st : ClassIdx) (c : ClassRec) : ClassIdx :=
  match c.name with
  | none => st
  | some cname =>
    if cname = "" then st
    else
      let mm := c.methods.foldl (procMethod cname) (st.methods_by_name, st.methods_by_hash)
      { classes_by_name := pyInsert st.classes_by_name cname c,
        methods_by_name := mm.1,
        methods_by_hash := mm.2,
        class_enums_qualname := c.enums.foldl (procEnum cname) st.class_enums_qualname }

def emptyClassIdx : ClassIdx :=
  { classes_by_name := [], methods_by_name := [],
    methods_by_hash := [], class_enums_qualname := [] }

def buildClassIdx (api : Api) : ClassIdx :=
  api.classes.foldl processClass emptyClassIdx

def procGlobalEnum (d : PyDict EnumRec) (e : EnumRec) : PyDict EnumRec :=
  match e.name with
  | some en => if en = "" then d else pyInsert d en e
  | none => d

def procUtility (d : PyDict UtilityRec) (u : UtilityRec) : PyDict UtilityRec :=
  match u.name with
  | some nm => if nm = "" then d else pyInsert d nm u
  | none => d

/-- builtin_class_sizes: per configuration, name and size are kept when both
are not-None (an is-not-None test, not a truthiness test). -/
def procSizeConf (d : PyDict (PyDict Int)) (conf : SizeConf) : PyDict (PyDict Int) :=
  let sizes_map := conf.sizes.foldl (fun m item =>
    match item.name, item.size with
    | some bn, some sz => pyInsert m bn sz
    | _, _ => m) []
  match conf.build_configuration with
  | some cn => if cn = "" then d else pyInsert d cn sizes_map
  | none => d

def procOffsetConf (d : PyDict (PyDict (List OffsetEntry))) (conf : OffsetConf) :
    PyDict (PyDict (List OffsetEntry)) :=
  let cmap := conf.classes.foldl (fun m c =>
    match c.name with
    | some bn => if bn = "" then m else pyInsert m bn c.members
    | none => m) []
  match conf.build_configuration with
  | some cn => if cn = "" then d else pyInsert d cn cmap
  | none => d

def procBuiltin (d : PyDict BuiltinClassRec) (b : BuiltinClassRec) : PyDict BuiltinClassRec :=
  match b.name with
  | some bn => if bn = "" then d else pyInsert d bn b
  | none => d

def procGlobalConst (d : PyDict GlobalConstantRec) (gc : GlobalConstantRec) :
    PyDict GlobalConstantRec :=
  match gc.name with
  | some nm => if nm = "" then d else pyInsert d nm gc
  | none => d

structure Indexes where
  classes_by_name : PyDict ClassRec
  methods_by_name : PyDict (List (String × MethodRec))
  methods_by_hash : PyDict (List (String × MethodRec))
  global_enums_by_name : PyDict EnumRec
  class_enums_qualname : PyDict EnumRec
  builtin_sizes : PyDict (PyDict Int)
  builtin_offsets : PyDict (PyDict (List OffsetEntry))
  utility_by_name : PyDict UtilityRec
  builtin_classes_by_name : PyDict BuiltinClassRec
  global_constants_by_name : PyDict GlobalConstantRec
deriving DecidableEq, Repr

/-- ExtApi._build_indexes over the collections in scope. -/
def build_indexes (api : Api) : Indexes :=
  let ci := buildClassIdx api
  { classes_by_name := ci.classes_by_name,
    methods_by_name := ci.methods_by_name,
    methods_by_hash := ci.methods_by_hash,
    global_enums_by_name := api.global_enums.foldl procGlobalEnum [],
    class_enums_qualname := ci.class_enums_qualname,
    builtin_sizes := api.builtin_class_sizes.foldl procSizeConf [],
    builtin_offsets := api.builtin_class_member_offsets.foldl procOffsetConf [],
    utility_by_name := api.utility_functions.foldl procUtility [],
    builtin_classes_by_name := api.builtin_classes.foldl procBuiltin [],
    global_constants_by_name := api.global_constants.foldl procGlobalConst [] }

/- ----------------------------------------------------------------- -/
/- Lookup service.  Where the Python code tests a record's truthiness -/
/- (if c:), the indexed values are dicts that always carry a name     -/
/- key, hence non-empty and truthy, so the test is equivalent to the  -/
/- is-not-None test encoded by the Option match.                      -/
/- ----------------------------------------------------------------- -/

def get_class (ix : Indexes) (name : String) : Option ClassRec :=
  match pyGet ix.classes_by_name name with
  | some c => some c
  | none =>
    match (dictKeys ix.classes_by_name).find? (fun k => pyLower k == pyLower name) with
    | some k => pyGet ix.classes_by_name k
    | none => none

structure EnumOut where
  name : String
  values : List (Option String)
deriving DecidableEq, Repr

def get_global_enum (ix : Indexes) (name : String) : Option EnumOut :=
  match pyGet ix.global_enums_by_name name with
  | some e => some { name := name, values := e.values.map (fun v => v.name) }
  | none =>
    match ix.global_enums_by_name.find? (fun kv => pyLower kv.1 == pyLower name) with
    | some kv => some { name := kv.1, values := kv.2.values.map (fun v => v.name) }
    | none => none

def get_class_enum (ix : Indexes) (qualified : String) : Option EnumOut :=
  match pyGet ix.class_enums_qualname qualified with
  | some e => some { name := qualified, values := e.values.map (fun v => v.name) }
  | none =>
    match pySplitDot qualified with
    | [cpart, enpart] =>
      match (dictKeys ix.classes_by_name).find? (fun k => pyLower k == pyLower cpart) with
      | some cname_real =>
        let key := cname_real ++ "." ++ enpart
        match pyGet ix.class_enums_qualname key with
        | some e => some { name := key, values := e.values.map (fun v => v.name) }
        | none => none
      | none => none
    | _ => none

structure SigDict where
  cls : String
  name : Option String
  ret : Option TypeDesc
  args : List (Option TypeDesc)
  hash : Option Int
  hash_compatibility : HashCompat
  is_static : Bool
  is_const : Bool
  is_virtual : Bool
  is_vararg : Bool
deriving DecidableEq, Repr

def sig_dict (cls : String) (m : MethodRec) : SigDict :=
  { cls := cls, name := m.name,
    ret := (m.return_value.getD { type := none }).type,
    args := m.arguments.map (fun a => a.type),
    hash := m.hash, hash_compatibility := m.hash_compatibility,
    is_static := m.is_static.getD false, is_const := m.is_const.getD false,
    is_virtual := m.is_virtual.getD false, is_vararg := m.is_vararg.getD false }

/-- ExtApi.find_methods: an empty-string class filter is falsy and filters
nothing, like a missing one. -/
def find_methods (ix : Indexes) (name : String) (cls : Option String) : List SigDict :=
  (((pyGet ix.methods_by_name name).getD []).filter (fun cm =>
    match cls with
    | some c => if c = "" then true else pyLower cm.1 == pyLower c
    | none => true)).map (fun cm => sig_dict cm.1 cm.2)

/-- The argument of find_method_by_hash: Python annotates it str or int. -/
inductive HashArg where
  | int (i : Int)
  | str (s : String)
deriving DecidableEq, Repr

/-- Python str() applied to the hash argument. -/
def HashArg.toStr : HashArg → String
  | HashArg.int i => toString i
  | HashArg.str s => s

def find_method_by_hash (ix : Indexes) (h : HashArg) : List SigDict :=
  ((pyGet ix.methods_by_hash h.toStr).getD []).map (fun cm => sig_dict cm.1 cm.2)

structure UtilityOut where
  name : String
  category : Option String
  return_type : Option String
  args : List (Option TypeDesc)
deriving DecidableEq, Repr

def utility_out (nm : String) (u : UtilityRec) : UtilityOut :=
  { name := nm, category := u.category, return_type := u.return_type,
    args := u.arguments.map (fun a => a.type) }

/-- The by-name branch of ExtApi.find_utility (lines 285-293); none stands
for the empty dict Python returns when the name resolves nowhere. -/
def find_utility_name (ix : Indexes) (name : String) : Option UtilityOut :=
  match pyGet ix.utility_by_name name with
  | some u => some (utility_out name u)
  | none =>
    match ix.utility_by_name.find? (fun kv => pyLower kv.1 == pyLower name) with
    | some kv => some (utility_out kv.1 kv.2)
    | none => none

def get_global_constant (ix : Indexes) (name : String) : Option GlobalConstantRec :=
  match pyGet ix.global_constants_by_name name with
  | some gc => some gc
  | none =>
    match ix.global_constants_by_name.find? (fun kv => pyLower kv.1 == pyLower name) with
    | some kv => some kv.2
    | none => none

def resolve_builtin_name (ix : Indexes) (name : String) : Option BuiltinClassRec :=
  match pyGet ix.builtin_classes_by_name name with
  | some b => some b
  | none =>
    match ix.builtin_classes_by_name.find? (fun kv => pyLower kv.1 == pyLower name) with
    | some kv => some kv.2
    | none => none

/-- ExtApi._resolve_builtin_key: the membership test name in dict, then the
case-insensitive scan over the keys. -/
def resolve_builtin_key (ix : Indexes) (name : String) : Option String :=
  if (pyGet ix.builtin_classes_by_name name).isSome then some name
  else (dictKeys ix.builtin_classes_by_name).find? (fun k => pyLower k == pyLower name)

structure MemberOut where
  name : Option String
  type : Option String
deriving DecidableEq, Repr

structure BConstOut where
  name : Option String
  value : Option String
deriving DecidableEq, Repr

structure CtorOut where
  index : Option Int
  args : List (Option TypeDesc)
deriving DecidableEq, Repr

structure OpOut where
  name : Option String
  right_type : Option String
  return_type : Option String
deriving DecidableEq, Repr

structure BMethOut where
  name : Option String
  return_type : Option String
  is_vararg : Bool
  args : List (Option TypeDesc)
deriving DecidableEq, Repr

structure BuiltinOut where
  name : Option String
  is_keyed : Option Bool
  has_destructor : Option Bool
  indexing_return_type : Option (Option String)
  members : Option (List MemberOut)
  constants : Option (List BConstOut)
  constructors : Option (List CtorOut)
  operators : Option (List OpOut)
  methods : Option (List BMethOut)
deriving DecidableEq, Repr

def member_type_out : Option TypeDesc → Option String
  | none => none
  | some (TypeDesc.str s) => some s
  | some (TypeDesc.dict t) => t

/-- The body of ExtApi.get_builtin after name resolution: a section is
emitted only when its source list is truthy, that is present and
non-empty. -/
def mk_builtin_out (b : BuiltinClassRec) : BuiltinOut :=
  { name := b.name, is_keyed := b.is_keyed, has_destructor := b.has_destructor,
    indexing_return_type := b.indexing_return_type,
    members :=
      match b.members with
      | some l =>
        if l.isEmpty then none
        else some (l.map (fun m => { name := m.name, type := member_type_out m.type }))
      | none => none,
    constants :=
      match b.constants with
      | some l =>
        if l.isEmpty then none
        else some (l.map (fun c => ({ name := c.name, value := c.value } : BConstOut)))
      | none => none,
    constructors :=
      match b.constructors with
      | some l =>
        if l.isEmpty then none
        else some (l.map (fun c =>
          ({ index := c.index, args := c.arguments.map (fun a => a.type) } : CtorOut)))
      | none => none,
    operators :=
      match b.operators with
      | some l =>
        if l.isEmpty then none
        else some (l.map (fun op =>
          ({ name := op.name, right_type := op.right_type,
             return_type := op.return_type } : OpOut)))
      | none => none,
    methods :=
      match b.methods with
      | some l =>
        if l.isEmpty then none
        else some (l.map (fun m =>
          ({ name := m.name, return_type := m.return_type,
             is_vararg := m.is_vararg.getD false,
             args := m.arguments.map (fun a => a.type) } : BMethOut)))
      | none => none }

def get_builtin (ix : Indexes) (name : String) : Option BuiltinOut :=
  (resolve_builtin_name ix name).map mk_builtin_out

structure Layout where
  cls : Option String
  config : String
  size : Option Int
  members : List OffsetEntry
deriving DecidableEq, Repr

/-- The size recorded for the resolved builtin under a configuration. -/
def layout_size (ix : Indexes) (name config : String) : Option Int :=
  match resolve_builtin_key ix name with
  | some bn => pyGet ((pyGet ix.builtin_sizes config).getD []) bn
  | none => none

/-- The offset list recorded for the resolved builtin under a
configuration. -/
def layout_members (ix : Indexes) (name config : String) : Option (List OffsetEntry) :=
  match resolve_builtin_key ix name with
  | some bn => pyGet ((pyGet ix.builtin_offsets config).getD []) bn
  | none => none

/-- Python falsiness of an optional list: None and the empty list. -/
def pyFalsyList {α : Type} : Option (List α) → Bool
  | none => true
  | some l => l.isEmpty

def get_builtin_layout (ix : Indexes) (name config : String) : Option Layout :=
  let size := layout_size ix name config
  let members := layout_members ix name config
  if size.isNone && pyFalsyList members then none
  else some { cls := resolve_builtin_key ix name, config := config,
              size := size, members := members.getD [] }

/-- ExtApi.get_builtin_member_offset: linear scan, returning the first
matching entry's offset field (possibly absent). -/
def get_builtin_member_offset (ix : Indexes) (name member config : String) : Option Int :=
  match get_builtin_layout ix name config with
  | none => none
  | some lay =>
    match lay.members.find? (fun it => it.member == some member) with
    | some it => it.offset
    | none => none

/- ----------------------------------------------------------------- -/
/- Formatter (ExtApi._fmt_*), needed by list_class_items whose output -/
/- the router's class rule carries.                                   -/
/- ----------------------------------------------------------------- -/

def fmt_type_str (t : String) : String :=
  if t.startsWith "typedarray::" then "Array<" ++ t.drop 12 ++ ">"
  else if t.startsWith "enum::" then t.drop 6
  else t

def fmt_type : Option TypeDesc → String
  | none => "void"
  | some (TypeDesc.str s) => if s = "" then "void" else fmt_type_str s
  | some (TypeDesc.dict t) =>
    fmt_type_str (match t with
      | some x => if x = "" then "void" else x
      | none => "void")

def joinComma (l : List String) : String := String.intercalate ", " l

def fmt_arg (a : ArgRec) : String :=
  let t := fmt_type a.type
  match a.default_value with
  | some dv => t ++ " " ++ a.name.getD "" ++ "=" ++ dv
  | none =>
    match a.name with
    | some n => if n = "" then t else t ++ " " ++ n
    | none => t

def fmt_method_sig (m : MethodRec) (cls : Option String) : String :=
  let ret := fmt_type ((m.return_value.getD { type := none }).type)
  let args := joinComma (m.arguments.map fmt_arg)
  let nm := m.name.getD "<unnamed>"
  let qual :=
    match cls with
    | some c => if c = "" then nm else c ++ "::" ++ nm
    | none => nm
  let flags :=
    (if m.is_static.getD false then ["static"] else []) ++
    (if m.is_const.getD false then ["const"] else []) ++
    (if m.is_virtual.getD false then ["virtual"] else []) ++
    (if m.is_vararg.getD false then ["vararg"] else [])
  let flags_s := if flags.isEmpty then "" else " [" ++ joinComma flags ++ "]"
  ret ++ " " ++ qual ++ "(" ++ args ++ ")" ++ flags_s

def fmt_property (p : PropRec) : String :=
  let t := fmt_type p.type
  let nm := p.name.getD "<unnamed>"
  let extra :=
    (match p.getter with
     | some g => if g = "" then [] else ["get=" ++ g]
     | none => []) ++
    (match p.setter with
     | some s => if s = "" then [] else ["set=" ++ s]
     | none => []) ++
    (match p.index with
     | some i => ["index=" ++ toString i]
     | none => [])
  t ++ " " ++ nm ++ (if extra.isEmpty then "" else " [" ++ joinComma extra ++ "]")

def atype_str (a : ArgRec) : String :=
  let t : Option String :=
    match a.type with
    | none => none
    | some (TypeDesc.str s) => some s
    | some (TypeDesc.dict ti) => ti
  match t with
  | some s => if s = "" then "void" else s
  | none => "void"

def pyStrip (s : String) : String :=
  String.mk (((s.data.dropWhile isSpaceCh).reverse.dropWhile isSpaceCh).reverse)

def fmt_signal (s : SignalRec) : String :=
  "signal " ++ s.name.getD "<unnamed>" ++ "(" ++
    joinComma (s.arguments.map (fun a => pyStrip (atype_str a ++ " " ++ a.name.getD ""))) ++ ")"

structure ConstOut where
  name : Option String
  value : Option Int
deriving DecidableEq, Repr

structure EnumItemOut where
  name : Option String
  values : List (Option String)
deriving DecidableEq, Repr

structure ClassItemsOut where
  name : Option String
  api_type : Option String
  inherits : Option String
  is_instantiable : Option Bool
  is_refcounted : Option Bool
  methods : List String
  properties : List String
  signals : List String
  constants : List ConstOut
  enums : List EnumItemOut
deriving DecidableEq, Repr

def list_class_items (ix : Indexes) (name : String) : Option ClassItemsOut :=
  match get_class ix name with
  | none => none
  | some c =>
    some ({ name := c.name, api_type := c.api_type, inherits := c.inherits,
            is_instantiable := c.is_instantiable, is_refcounted := c.is_refcounted,
            methods := c.methods.map (fun m => fmt_method_sig m c.name),
            properties := c.properties.map fmt_property,
            signals := c.signals.map fmt_signal,
            constants := c.constants.map (fun k =>
              ({ name := k.name, value := k.value } : ConstOut)),
            enums := c.enums.map (fun e =>
              ({ name := e.name, values := e.values.map (fun v => v.name) } :
                EnumItemOut)) } : ClassItemsOut)

/- ----------------------------------------------------------------- -/
/- Query router (ExtApi.route), as the ordered cascade of             -/
/- Option-valued rules the code's early returns denote.               -/
/- ----------------------------------------------------------------- -/

inductive RouteResult where
  | builtin_member_offset (config cls member : String) (offset : Int)
  | builtin_layout (cls config : String) (result : Layout)
  | method_by_hash (hash : String) (result : List SigDict)
  | builtin (cls : String) (result : Option BuiltinOut)
  | class_enum (qualified : String) (result : Option EnumOut)
  | class_detail (name : String) (result : Option ClassItemsOut)
  | method_by_name (name : String) (result : List SigDict)
  | help (hints : List String)
deriving DecidableEq, Repr

def help_hints : List String :=
  ["Exemplos:", "builtin Color", "layout de Color", "offset de Color.a",
   "tamanho de Vector3", "classe Node", "método add_child", "Node.ProcessMode"]

def layoutTrigger (ql : String) : Bool :=
  pyIn "layout" ql || pyIn "tamanho" ql || pyIn "size" ql || pyIn "offset" ql

/-- ExtApi._extract_known: longest-first (stable) scan of the known names
for a whole-word, case-insensitive occurrence in the query. -/
def extract_known (q : String) (names : List String) : Option String :=
  (sortByLenDesc names).find? (fun nm => searchWordCI nm.data q.data)

/-- Python x or y on an optional string and a default. -/
def pyOrStr (o : Option String) (dflt : String) : String :=
  match o with
  | some s => if s = "" then dflt else s
  | none => dflt

/-- The member-offset sub-branch of route step 1 (only reached when the
lowercased query contains offset and the query contains a dot; returns a
result only when the dotted pair parses and the offset lookup succeeds). -/
def rule1_offset (ix : Indexes) (q : String) : Option RouteResult :=
  if pyIn "offset" (pyLower q) && pyIn "." q then
    match dotPairSearch true true none q.data with
    | some g =>
      let cls := pyOrStr (extract_known (String.mk g.1) (dictKeys ix.builtin_classes_by_name))
        (String.mk g.1)
      let member := String.mk g.2
      match get_builtin_member_offset ix cls member "float_32" with
      | some off => some (RouteResult.builtin_member_offset "float_32" cls member off)
      | none => none
    | none => none
  else none

/-- route step 1: builtin layout, size and offset queries. -/
def rule1 (ix : Indexes) (q : String) : Option RouteResult :=
  if layoutTrigger (pyLower q) then
    match extract_known q (dictKeys ix.builtin_classes_by_name) with
    | some bn =>
      match rule1_offset ix q with
      | some r => some r
      | none =>
        match get_builtin_layout ix bn "float_32" with
        | some lay => some (RouteResult.builtin_layout bn lay.config lay)
        | none => none
    | none => none
  else none

/-- route step 2: method by hash. -/
def rule2 (ix : Indexes) (q : String) : Option RouteResult :=
  match hashNumSearch (pyLower q).data with
  | some ds =>
    some (RouteResult.method_by_hash (String.mk ds)
      (find_method_by_hash ix (HashArg.str (String.mk ds))))
  | none => none

/-- route step 3: builtin detail. -/
def rule3 (ix : Indexes) (q : String) : Option RouteResult :=
  if pyIn "builtin" (pyLower q) then
    let m4 :=
      match builtinAfterSearch none q.data with
      | some g => some g
      | none => builtinBeforeSearch none q.data
    let nm :=
      match m4 with
      | some g => some (String.mk g)
      | none => extract_known q (dictKeys ix.builtin_classes_by_name)
    match nm with
    | some n => if n = "" then none else some (RouteResult.builtin n (get_builtin ix n))
    | none => none
  else none

/-- route step 4: class-qualified enum, fired by any dotted pair. -/
def rule4 (ix : Indexes) (q : String) : Option RouteResult :=
  match dotPairSearch false false none q.data with
  | some g =>
    let qual := String.mk g.1 ++ "." ++ String.mk g.2
    some (RouteResult.class_enum qual (get_class_enum ix qual))
  | none => none

def classTrigger (ql : String) : Bool := pyIn "classe" ql || pyIn "class" ql

/-- route step 5: class detail. -/
def rule5 (ix : Indexes) (q : String) : Option RouteResult :=
  if classTrigger (pyLower q) then
    let cname :=
      match classKwSearch none q.data with
      | some g => some (String.mk g)
      | none => extract_known q (dictKeys ix.classes_by_name)
    match cname with
    | some cn =>
      if cn = "" then none
      else some (RouteResult.class_detail cn (list_class_items ix cn))
    | none => none
  else none

def methodTrigger (ql : String) : Bool :=
  pyIn "método" ql || pyIn "metodo" ql || pyIn "method" ql

/-- route step 6: method by name, taking the first word token of the whole
query. -/
def rule6 (ix : Indexes) (q : String) : Option RouteResult :=
  if methodTrigger (pyLower q) then
    match firstWordSearch none q.data with
    | some g =>
      some (RouteResult.method_by_name (String.mk g)
        (find_methods ix (String.mk g) none))
    | none => none
  else none

/-- ExtApi.route: the six-rule cascade with the help fallback. -/
def route (ix : Indexes) (q : String) : RouteResult :=
  match rule1 ix q with
  | some r => r
  | none =>
    match rule2 ix q with
    | some r => r
    | none =>
      match rule3 ix q with
      | some r => r
      | none =>
        match rule4 ix q with
        | some r => r
        | none =>
          match rule5 ix q with
          | some r => r
          | none =>
            match rule6 ix q with
            | some r => r
            | none => RouteResult.help help_hints


/-- Membership of a value in a list-valued dictionary entry. -/
def memD {V : Type} (d : PyDict (List V)) (k : String) (x : V) : Prop :=
  ∃ l, pyGet d k = some l ∧ x ∈ l

/- ----------------------------------------------------------------- -/
/- Concrete schema documents used to instantiate the theorems below.  -/
/- ----------------------------------------------------------------- -/

def apiEmptyW : Api :=
  { classes := [], global_enums := [], utility_functions := [],
    builtin_class_sizes := [], builtin_class_member_offsets := [],
    builtin_classes := [], global_constants := [] }

def colorBuiltinW : BuiltinClassRec :=
  { name := some "Color", is_keyed := some false, has_destructor := some false,
    indexing_return_type := none,
    members := some [{ name := some "r", type := some (TypeDesc.str "float") }],
    constants := some [], constructors := none, operators := none, methods := none }

def colorSizeConfW : SizeConf :=
  { build_configuration := some "float_32",
    sizes := [{ name := some "Color", size := some 16 }] }

def colorOffEntriesW : List OffsetEntry :=
  [{ member := some "r", offset := some 0, meta := some "float" },
   { member := some "a", offset := some 12, meta := some "float" }]

def colorOffConfW : OffsetConf :=
  { build_configuration := some "float_32",
    classes := [{ name := some "Color", members := colorOffEntriesW }] }

/-- A schema holding one builtin class Color with a size and member offsets
under float_32. -/
def colorApiW : Api :=
  { classes := [], global_enums := [], utility_functions := [],
    builtin_class_sizes := [colorSizeConfW],
    builtin_class_member_offsets := [colorOffConfW],
    builtin_classes := [colorBuiltinW], global_constants := [] }

def colorLayoutW : Layout :=
  { cls := some "Color", config := "float_32", size := some 16,
    members := colorOffEntriesW }

def methW2 : MethodRec :=
  { name := some "add_child", return_value := none, arguments := [],
    hash := some 7, hash_compatibility := HashCompat.list [8, 9],
    is_static := none, is_const := none, is_virtual := none, is_vararg := none }

def classW2 : ClassRec :=
  { name := some "Node", api_type := none, inherits := none,
    is_instantiable := none, is_refcounted := none,
    methods := [methW2], properties := [], signals := [], constants := [],
    enums := [] }

def apiW2 : Api :=
  { classes := [classW2], global_enums := [], utility_functions := [],
    builtin_class_sizes := [], builtin_class_member_offsets := [],
    builtin_classes := [], global_constants := [] }

def enumW3 : EnumRec :=
  { name := some "Layout",
    values := [{ name := some "TOP", value := some 0 },
               { name := some "FULL", value := some 1 }] }

def classW3 : ClassRec :=
  { name := some "Control", api_type := none, inherits := none,
    is_instantiable := none, is_refcounted := none,
    methods := [], properties := [], signals := [], constants := [],
    enums := [enumW3] }

def apiW3 : Api :=
  { classes := [classW3], global_enums := [], utility_functions := [],
    builtin_class_sizes := [], builtin_class_member_offsets := [],
    builtin_classes := [], global_constants := [] }

def classW4a : ClassRec :=
  { name := some "Node", api_type := none, inherits := none,
    is_instantiable := none, is_refcounted := none,
    methods := [], properties := [], signals := [], constants := [], enums := [] }

def classW4b : ClassRec :=
  { name := some "NODE", api_type := some "upper", inherits := none,
    is_instantiable := none, is_refcounted := none,
    methods := [], properties := [], signals := [], constants := [], enums := [] }

def enumW4a : EnumRec := { name := some "Corner", values := [] }

def enumW4b : EnumRec :=
  { name := some "CORNER", values := [{ name := some "X", value := some 0 }] }

def utilW4a : UtilityRec :=
  { name := some "sin", category := some "Math", return_type := some "float",
    arguments := [] }

def utilW4b : UtilityRec :=
  { name := some "SIN", category := some "Other", return_type := none,
    arguments := [] }

def builtinW4b : BuiltinClassRec :=
  { name := some "COLOR", is_keyed := some true, has_destructor := some true,
    indexing_return_type := none, members := none, constants := none,
    constructors := none, operators := none, methods := none }

def gconstW4a : GlobalConstantRec := { name := some "OK", value := some 0 }

def gconstW4b : GlobalConstantRec := { name := some "ok", value := some 99 }

/-- A schema in which every index holds both a key and a casing variant of
it, to exhibit exact-match precedence. -/
def apiW4 : Api :=
  { classes := [classW4a, classW4b], global_enums := [enumW4a, enumW4b],
    utility_functions := [utilW4a, utilW4b],
    builtin_class_sizes := [], builtin_class_member_offsets := [],
    builtin_classes := [colorBuiltinW, builtinW4b],
    global_constants := [gconstW4a, gconstW4b] }

def opaqueBuiltinW : BuiltinClassRec :=
  { name := some "Opaque", is_keyed := some false, has_destructor := some false,
    indexing_return_type := none, members := none, constants := none,
    constructors := none, operators := none, methods := none }

def offBuiltinW : BuiltinClassRec :=
  { name := some "Off", is_keyed := some false, has_destructor := some false,
    indexing_return_type := none, members := none, constants := none,
    constructors := none, operators := none, methods := none }

def offEntriesW5 : List OffsetEntry :=
  [{ member := some "x", offset := some 0, meta := some "float" }]

def sizeConfW5 : SizeConf :=
  { build_configuration := some "float_32",
    sizes := [{ name := some "Opaque", size := some 8 }] }

def offConfW5 : OffsetConf :=
  { build_configuration := some "float_32",
    classes := [{ name := some "Off", members := offEntriesW5 }] }

/-- A schema with one builtin holding a size but no offsets and one holding
offsets but no size. -/
def apiW5 : Api :=
  { classes := [], global_enums := [], utility_functions := [],
    builtin_class_sizes := [sizeConfW5],
    builtin_class_member_offsets := [offConfW5],
    builtin_classes := [opaqueBuiltinW, offBuiltinW], global_constants := [] }

def enumW10 : EnumRec :=
  { name := some "Mode", values := [{ name := some "ON", value := some 0 }] }

def classW10 : ClassRec :=
  { name := some "Node", api_type := none, inherits := none,
    is_instantiable := none, is_refcounted := none,
    methods := [], properties := [], signals := [], constants := [],
    enums := [enumW10] }

def apiW10 : Api :=
  { classes := [classW10], global_enums := [], utility_functions := [],
    builtin_class_sizes := [], builtin_class_member_offsets := [],
    builtin_classes := [], global_constants := [] }

/- ----------------------------------------------------------------- -/
/- Helper lemmas: dictionary operations.                              -/
/- ----------------------------------------------------------------- -/

theorem pyGet_insert_self {V : Type} (d : PyDict V) (k : String) (v : V) :
    pyGet (pyInsert d k v) k = some v := by
  induction d with
  | nil => simp [pyInsert, pyGet]
  | cons kv t ih =>
    obtain ⟨k0, v0⟩ := kv
    by_cases h : k0 = k
    · subst h; simp [pyInsert, pyGet]
    · simp only [pyInsert, if_neg h, pyGet, ih, if_neg h]

theorem pyGet_insert_ne {V : Type} (d : PyDict V) (k k' : String) (v : V)
    (h : k' ≠ k) : pyGet (pyInsert d k v) k' = pyGet d k' := by
  induction d with
  | nil => simp only [pyInsert, pyGet, if_neg (Ne.symm h)]
  | cons kv t ih =>
    obtain ⟨k0, v0⟩ := kv
    by_cases h0 : k0 = k
    · subst h0
      simp only [pyInsert, if_pos rfl, pyGet, if_neg (Ne.symm h)]
    · simp only [pyInsert, if_neg h0, pyGet, ih]

theorem mem_pyInsert {V : Type} {kv : String × V} {d : PyDict V} {k : String} {v : V}
    (h : kv ∈ pyInsert d k v) : kv = (k, v) ∨ kv ∈ d := by
  induction d with
  | nil => simpa [pyInsert] using h
  | cons kv0 t ih =>
    obtain ⟨k0, v0⟩ := kv0
    by_cases h0 : k0 = k
    · subst h0
      simp only [pyInsert, if_pos rfl] at h
      rcases List.mem_cons.mp h with h | h
      · exact Or.inl h
      · exact Or.inr (List.mem_cons_of_mem _ h)
    · simp only [pyInsert, if_neg h0] at h
      rcases List.mem_cons.mp h with h | h
      · exact Or.inr (h ▸ List.mem_cons_self _ _)
      · rcases ih h with h | h
        · exact Or.inl h
        · exact Or.inr (List.mem_cons_of_mem _ h)

theorem pyGet_mem {V : Type} {d : PyDict V} {k : String} {v : V}
    (h : pyGet d k = some v) : (k, v) ∈ d := by
  induction d with
  | nil => simp [pyGet] at h
  | cons kv0 t ih =>
    obtain ⟨k0, v0⟩ := kv0
    by_cases h0 : k0 = k
    · subst h0
      simp [pyGet] at h
      subst h
      exact List.mem_cons_self _ _
    · simp only [pyGet, if_neg h0] at h
      exact List.mem_cons_of_mem _ (ih h)

theorem mem_keys_iff_pyGet {V : Type} (d : PyDict V) (k : String) :
    k ∈ dictKeys d ↔ (pyGet d k).isSome := by
  induction d with
  | nil => simp [dictKeys, pyGet]
  | cons kv0 t ih =>
    obtain ⟨k0, v0⟩ := kv0
    by_cases h0 : k0 = k
    · subst h0
      simp [dictKeys, pyGet]
    · have h0' : ¬(k = k0) := fun hh => h0 hh.symm
      simp only [dictKeys, List.map_cons, List.mem_cons, h0', false_or, pyGet,
        if_neg h0]
      exact ih

theorem pyGet_insertAppend_eq {V : Type} (d : PyDict (List V)) (k : String) (x : V) :
    pyGet (pyInsertAppend d k x) k = some ((pyGet d k).getD [] ++ [x]) := by
  induction d with
  | nil => simp [pyInsertAppend, pyGet]
  | cons kv0 t ih =>
    obtain ⟨k0, l0⟩ := kv0
    by_cases h0 : k0 = k
    · subst h0
      simp [pyInsertAppend, pyGet]
    · simp only [pyInsertAppend, if_neg h0, pyGet, ih, if_neg h0]

theorem pyGet_insertAppend_ne {V : Type} (d : PyDict (List V)) (k k' : String) (x : V)
    (h : k' ≠ k) : pyGet (pyInsertAppend d k x) k' = pyGet d k' := by
  induction d with
  | nil => simp only [pyInsertAppend, pyGet, if_neg (Ne.symm h)]
  | cons kv0 t ih =>
    obtain ⟨k0, l0⟩ := kv0
    by_cases h0 : k0 = k
    · subst h0
      simp only [pyInsertAppend, if_pos rfl, pyGet, if_neg (Ne.symm h)]
    · simp only [pyInsertAppend, if_neg h0, pyGet, ih]

theorem memD_insertAppend_self {V : Type} (d : PyDict (List V)) (k : String) (x : V) :
    memD (pyInsertAppend d k x) k x :=
  ⟨(pyGet d k).getD [] ++ [x], pyGet_insertAppend_eq d k x,
    List.mem_append_right _ (List.mem_singleton.mpr rfl)⟩

theorem memD_insertAppend_mono {V : Type} {d : PyDict (List V)} {k : String} {x : V}
    (k' : String) (y : V) (h : memD d k x) : memD (pyInsertAppend d k' y) k x := by
  obtain ⟨l, hl, hx⟩ := h
  by_cases hk : k = k'
  · subst hk
    refine ⟨(pyGet d k).getD [] ++ [y], pyGet_insertAppend_eq d k y, ?_⟩
    rw [hl]
    exact List.mem_append_left _ hx
  · exact ⟨l, by rw [pyGet_insertAppend_ne d k' k y hk, hl], hx⟩

/- ----------------------------------------------------------------- -/
/- Helper lemmas: folds, find?, the length-descending sort.           -/
/- ----------------------------------------------------------------- -/

theorem foldl_inv {α σ : Type _} (step : σ → α → σ) (P : σ → Prop) (l : List α) :
    ∀ s : σ, P s → (∀ t a, a ∈ l → P t → P (step t a)) → P (l.foldl step s) := by
  induction l with
  | nil => intro s hs _; exact hs
  | cons a t ih =>
    intro s hs hstep
    exact ih (step s a) (hstep s a (List.mem_cons_self a t) hs)
      (fun u b hb hu => hstep u b (List.mem_cons_of_mem a hb) hu)

theorem foldl_estab {α σ : Type _} (step : σ → α → σ) (P : σ → Prop) (l : List α)
    (x : α) (hx : x ∈ l) (hest : ∀ t, P (step t x))
    (hstep : ∀ t a, a ∈ l → P t → P (step t a)) :
    ∀ s : σ, P (l.foldl step s) := by
  induction l with
  | nil => cases hx
  | cons a t ih =>
    intro s
    rcases List.mem_cons.mp hx with h | h
    · subst h
      exact foldl_inv step P t (step s x) (hest s)
        (fun u b hb hu => hstep u b (List.mem_cons_of_mem x hb) hu)
    · exact ih h (fun u b hb hu => hstep u b (List.mem_cons_of_mem a hb) hu) (step s a)

theorem find_eq_some_unique {α : Type _} {p : α → Bool} {l : List α} {a : α}
    (ha : a ∈ l) (hpa : p a = true) (hu : ∀ b ∈ l, p b = true → b = a) :
    l.find? p = some a := by
  induction l with
  | nil => cases ha
  | cons x t ih =>
    by_cases hx : p x = true
    · rw [List.find?_cons_of_pos _ hx, hu x (List.mem_cons_self x t) hx]
    · rw [List.find?_cons_of_neg _ (by simpa using hx)]
      rcases List.mem_cons.mp ha with h | h
      · exact absurd (h ▸ hpa) hx
      · exact ih h (fun b hb hpb => hu b (List.mem_cons_of_mem x hb) hpb)

theorem find_exists {α : Type _} {p : α → Bool} {l : List α} {a : α}
    (ha : a ∈ l) (hpa : p a = true) :
    ∃ b, l.find? p = some b ∧ p b = true := by
  induction l with
  | nil => cases ha
  | cons x t ih =>
    by_cases hx : p x = true
    · exact ⟨x, List.find?_cons_of_pos _ hx, hx⟩
    · rw [List.find?_cons_of_neg _ (by simpa using hx)]
      rcases List.mem_cons.mp ha with h | h
      · exact absurd (h ▸ hpa) hx
      · exact ih h

theorem mem_insLenDesc {x : String} {l : List String} {a : String} :
    a ∈ insLenDesc x l ↔ a = x ∨ a ∈ l := by
  induction l with
  | nil => simp [insLenDesc]
  | cons y ys ih =>
    by_cases h : x.length > y.length
    · simp [insLenDesc, h, List.mem_cons]
    · simp only [insLenDesc, if_neg h, List.mem_cons, ih]
      tauto

theorem mem_sortFold {l : List String} :
    ∀ (acc : List String) (a : String),
      a ∈ l.foldl (fun acc x => insLenDesc x acc) acc ↔ a ∈ acc ∨ a ∈ l := by
  induction l with
  | nil => simp
  | cons x t ih =>
    intro acc a
    rw [List.foldl_cons, ih, mem_insLenDesc, List.mem_cons]
    tauto

theorem mem_sortByLenDesc {l : List String} {a : String} :
    a ∈ sortByLenDesc l ↔ a ∈ l := by
  unfold sortByLenDesc
  rw [mem_sortFold]
  simp

/- ----------------------------------------------------------------- -/
/- Helper lemmas: the whole-word case-insensitive search.  Inside a   -/
/- haystack made only of word characters, a successful search must    -/
/- span the whole haystack, so the needle is its case-insensitive     -/
/- equal.                                                             -/
/- ----------------------------------------------------------------- -/

theorem ciStarts_length_le {nm r : List Char} (h : ciStarts nm r = true) :
    nm.length ≤ r.length := by
  induction nm generalizing r with
  | nil => simp
  | cons a as ih =>
    cases r with
    | nil => simp [ciStarts] at h
    | cons b bs =>
      simp only [ciStarts, Bool.and_eq_true] at h
      simp only [List.length_cons]
      exact Nat.succ_le_succ (ih h.2)

theorem ciStarts_full {nm r : List Char} (h : ciStarts nm r = true)
    (hlen : r.length ≤ nm.length) : nm.map lowerCh = r.map lowerCh := by
  induction nm generalizing r with
  | nil =>
    cases r with
    | nil => rfl
    | cons b bs => simp at hlen
  | cons a as ih =>
    cases r with
    | nil => simp [ciStarts] at h
    | cons b bs =>
      simp only [ciStarts, Bool.and_eq_true, beq_iff_eq] at h
      simp only [List.map_cons, h.1]
      rw [ih h.2 (Nat.succ_le_succ_iff.mp (by simpa using hlen))]

theorem searchWordGo_allword {nm : List Char} (hnm : nm ≠ []) :
    ∀ r : List Char, (∀ c ∈ r, isWordCh c = true) →
      ∀ prev, optWordCh prev = true → searchWordGo nm prev r = false := by
  intro r
  induction r with
  | nil =>
    intro _ prev _
    cases nm with
    | nil => exact absurd rfl hnm
    | cons a as => simp [searchWordGo, matchWordHere, ciStarts]
  | cons c rest ih =>
    intro hall prev hprev
    have hcw : optWordCh (some c) = true := by
      simpa [optWordCh] using hall c (List.mem_cons_self _ _)
    have hb : wordBnd prev (some c) = false := by
      simp only [wordBnd, hprev, hcw]
      decide
    have hm : matchWordHere nm prev (c :: rest) = false := by
      simp only [matchWordHere, List.head?_cons, hb, Bool.and_false, Bool.false_and]
    simp only [searchWordGo, hm, Bool.false_or]
    exact ih (fun x hx => hall x (List.mem_cons_of_mem _ hx)) (some c) hcw

theorem searchWordCI_allword {nm w : List Char} (hnm : nm ≠ [])
    (hall : ∀ c ∈ w, isWordCh c = true) (h : searchWordCI nm w = true) :
    nm.map lowerCh = w.map lowerCh := by
  have hmatch : matchWordHere nm none w = true := by
    cases w with
    | nil => simpa [searchWordCI, searchWordGo] using h
    | cons c rest =>
      have h2 := searchWordGo_allword hnm rest
        (fun x hx => hall x (List.mem_cons_of_mem _ hx)) (some c)
        (by simpa [optWordCh] using hall c (List.mem_cons_self _ _))
      simpa [searchWordCI, searchWordGo, h2] using h
  simp only [matchWordHere, Bool.and_eq_true] at hmatch
  obtain ⟨⟨hci, _⟩, hb2⟩ := hmatch
  have hlen1 : nm.length ≤ w.length := ciStarts_length_le hci
  have hnm1 : 1 ≤ nm.length := by
    cases nm with
    | nil => exact absurd rfl hnm
    | cons a as => simp
  have hlast : optWordCh (lastTakenCh nm w none) = true := by
    have htake : w.take nm.length ≠ [] := by
      intro hemp
      have hlen0 := congrArg List.length hemp
      rw [List.length_take] at hlen0
      simp only [List.length_nil] at hlen0
      rcases Nat.min_eq_zero_iff.mp hlen0 with h0 | h0
      · omega
      · omega
    cases hl : (w.take nm.length).getLast? with
    | none => exact absurd (List.getLast?_eq_none_iff.mp hl) htake
    | some x =>
      have hxw : x ∈ w := List.mem_of_mem_take (List.mem_of_mem_getLast? hl)
      have hltc : lastTakenCh nm w none = some x := by
        simp only [lastTakenCh, hl]
      rw [hltc]
      simpa [optWordCh] using hall x hxw
  have hdrop : w.drop nm.length = [] := by
    cases hh : w.drop nm.length with
    | nil => rfl
    | cons d ds =>
      exfalso
      have hdw : d ∈ w := List.mem_of_mem_drop (hh ▸ List.mem_cons_self d ds)
      rw [hh] at hb2
      simp only [wordBnd, List.head?_cons] at hb2
      rw [hlast] at hb2
      have hdword : optWordCh (some d) = true := by
        simpa [optWordCh] using hall d hdw
      rw [hdword] at hb2
      simp at hb2
  exact ciStarts_full hci (List.drop_eq_nil_iff.mp hdrop)

/- ----------------------------------------------------------------- -/
/- Helper lemmas: splitting a qualified name at its only dot.         -/
/- ----------------------------------------------------------------- -/

theorem splitDotAux_no_dot {l : List Char} (h : ('.' : Char) ∉ l) :
    ∀ cur, splitDotAux cur l = [cur.reverse ++ l] := by
  induction l with
  | nil => intro cur; simp [splitDotAux]
  | cons c t ih =>
    intro cur
    have hc : (c == '.') = false := by
      simp only [beq_eq_false_iff_ne]
      intro hh
      exact h (hh ▸ List.mem_cons_self c t)
    simp only [splitDotAux, hc, Bool.false_eq_true, if_false]
    rw [ih (fun hm => h (List.mem_cons_of_mem _ hm)) (c :: cur)]
    simp

theorem splitDotAux_dot {a : List Char} (b : List Char) (h : ('.' : Char) ∉ a) :
    ∀ cur, splitDotAux cur (a ++ '.' :: b) = (cur.reverse ++ a) :: splitDotAux [] b := by
  induction a with
  | nil => intro cur; simp [splitDotAux]
  | cons c t ih =>
    intro cur
    have hc : (c == '.') = false := by
      simp only [beq_eq_false_iff_ne]
      intro hh
      exact h (hh ▸ List.mem_cons_self c t)
    simp only [List.cons_append, splitDotAux, hc, Bool.false_eq_true, if_false,
      List.append_eq]
    rw [ih (fun hm => h (List.mem_cons_of_mem _ hm)) (c :: cur)]
    simp

theorem str_dot_data (a b : String) :
    (a ++ "." ++ b).data = a.data ++ '.' :: b.data := by
  show (a.data ++ ['.']) ++ b.data = a.data ++ '.' :: b.data
  rw [List.append_assoc]
  rfl

theorem pySplitDot_pair {a b : String} (ha : ('.' : Char) ∉ a.data)
    (hb : ('.' : Char) ∉ b.data) : pySplitDot (a ++ "." ++ b) = [a, b] := by
  unfold pySplitDot
  rw [str_dot_data, splitDotAux_dot b.data ha [], splitDotAux_no_dot hb []]
  simp

theorem dot_append_inj {la lb lc ld : List Char} (hA : ('.' : Char) ∉ la)
    (hC : ('.' : Char) ∉ lc) (h : la ++ '.' :: lb = lc ++ '.' :: ld) :
    la = lc ∧ lb = ld := by
  induction la generalizing lc with
  | nil =>
    cases lc with
    | nil => simpa using h
    | cons x xs =>
      simp only [List.nil_append, List.cons_append, List.cons.injEq] at h
      exact absurd (List.mem_cons.mpr (Or.inl h.1)) hC
  | cons c ct ih =>
    cases lc with
    | nil =>
      simp only [List.cons_append, List.nil_append, List.cons.injEq] at h
      exact absurd (List.mem_cons.mpr (Or.inl h.1.symm)) hA
    | cons x xs =>
      simp only [List.cons_append, List.cons.injEq] at h
      obtain ⟨h1, h2⟩ := h
      obtain ⟨hac, hbd⟩ := ih (fun hm => hA (List.mem_cons_of_mem _ hm))
        (fun hm => hC (List.mem_cons_of_mem _ hm)) h2
      exact ⟨by rw [h1, hac], hbd⟩

theorem dot_count_no {la lb lc ld : List Char} (hA : ('.' : Char) ∉ la)
    (hB : ('.' : Char) ∉ lb) (h : la ++ '.' :: lb = lc ++ '.' :: ld) :
    ('.' : Char) ∉ lc ∧ ('.' : Char) ∉ ld := by
  have hc := congrArg (List.count '.') h
  rw [List.count_append, List.count_append, List.count_cons_self, List.count_cons_self,
    List.count_eq_zero.mpr hA, List.count_eq_zero.mpr hB] at hc
  constructor
  · exact List.count_eq_zero.mp (by omega)
  · exact List.count_eq_zero.mp (by omega)

theorem dot_decomp {la lb lc ld : List Char} (hA : ('.' : Char) ∉ la)
    (hB : ('.' : Char) ∉ lb) (h : la ++ '.' :: lb = lc ++ '.' :: ld) :
    la = lc ∧ lb = ld := by
  obtain ⟨hC, _⟩ := dot_count_no hA hB h
  exact dot_append_inj hA hC h

theorem str_dot_decomp {a b c d : String} (hA : ('.' : Char) ∉ a.data)
    (hB : ('.' : Char) ∉ b.data) (h : a ++ "." ++ b = c ++ "." ++ d) :
    a = c ∧ b = d := by
  have hd := congrArg String.data h
  rw [str_dot_data, str_dot_data] at hd
  obtain ⟨h1, h2⟩ := dot_decomp hA hB hd
  exact ⟨congrArg String.mk h1, congrArg String.mk h2⟩

theorem str_data_nil_iff {s : String} : s.data = [] ↔ s = "" :=
  ⟨fun h => congrArg String.mk h, fun h => congrArg String.data h⟩

/- ----------------------------------------------------------------- -/
/- Helper lemmas: what the index builder puts into each dictionary.   -/
/- ----------------------------------------------------------------- -/

theorem pyGet_insert_isSome {V : Type} {d : PyDict V} {n : String} (k : String) (v : V)
    (h : (pyGet d n).isSome) : (pyGet (pyInsert d k v) n).isSome := by
  by_cases hk : n = k
  · subst hk
    rw [pyGet_insert_self]
    rfl
  · rw [pyGet_insert_ne d k n v hk]
    exact h

theorem build_builtins_eq (api : Api) :
    (build_indexes api).builtin_classes_by_name = api.builtin_classes.foldl procBuiltin [] :=
  rfl

theorem build_classes_eq (api : Api) :
    (build_indexes api).classes_by_name = (buildClassIdx api).classes_by_name := rfl

theorem build_class_enums_eq (api : Api) :
    (build_indexes api).class_enums_qualname = (buildClassIdx api).class_enums_qualname := rfl

theorem build_methods_hash_eq (api : Api) :
    (build_indexes api).methods_by_hash = (buildClassIdx api).methods_by_hash := rfl

/-- Every key of the builtin-class index is the non-empty name of a record of
the source collection. -/
theorem builtin_prov (api : Api) :
    ∀ kv ∈ (build_indexes api).builtin_classes_by_name,
      kv.1 ≠ "" ∧ ∃ b ∈ api.builtin_classes, b.name = some kv.1 := by
  rw [build_builtins_eq]
  refine foldl_inv procBuiltin
    (fun d => ∀ kv ∈ d, kv.1 ≠ "" ∧ ∃ b ∈ api.builtin_classes, b.name = some kv.1)
    api.builtin_classes [] (by simp) ?_
  intro t a ha hP kv hkv
  cases hname : a.name with
  | none =>
    simp only [procBuiltin, hname] at hkv
    exact hP kv hkv
  | some bn =>
    by_cases hbn : bn = ""
    · simp only [procBuiltin, hname, if_pos hbn] at hkv
      exact hP kv hkv
    · simp only [procBuiltin, hname, if_neg hbn] at hkv
      rcases mem_pyInsert hkv with h | h
      · rw [h]
        exact ⟨hbn, a, ha, hname⟩
      · exact hP kv h

/-- A builtin record with a truthy name is reachable under its exact name. -/
theorem builtin_key_isSome {api : Api} {b : BuiltinClassRec} {n : String}
    (hb : b ∈ api.builtin_classes) (hn : b.name = some n) (hne : n ≠ "") :
    (pyGet (build_indexes api).builtin_classes_by_name n).isSome := by
  rw [build_builtins_eq]
  refine foldl_estab procBuiltin (fun d => (pyGet d n).isSome) api.builtin_classes b hb
    ?_ ?_ []
  · intro t
    simp only [procBuiltin, hn, if_neg hne]
    rw [pyGet_insert_self]
    rfl
  · intro t a _ hP
    cases hname : a.name with
    | none => simpa only [procBuiltin, hname] using hP
    | some bn =>
      by_cases hbn : bn = ""
      · simpa only [procBuiltin, hname, if_pos hbn] using hP
      · simp only [procBuiltin, hname, if_neg hbn]
        exact pyGet_insert_isSome bn a hP

/-- Every key of the class index is the non-empty name of a source class. -/
theorem classes_prov (api : Api) :
    ∀ kv ∈ (buildClassIdx api).classes_by_name,
      kv.1 ≠ "" ∧ ∃ c ∈ api.classes, c.name = some kv.1 := by
  unfold buildClassIdx
  refine foldl_inv processClass
    (fun st => ∀ kv ∈ st.classes_by_name, kv.1 ≠ "" ∧ ∃ c ∈ api.classes, c.name = some kv.1)
    api.classes emptyClassIdx (by simp [emptyClassIdx]) ?_
  intro t a ha hP kv hkv
  cases hname : a.name with
  | none =>
    simp only [processClass, hname] at hkv
    exact hP kv hkv
  | some cn =>
    by_cases hcn : cn = ""
    · simp only [processClass, hname, if_pos hcn] at hkv
      exact hP kv hkv
    · simp only [processClass, hname, if_neg hcn] at hkv
      rcases mem_pyInsert hkv with h | h
      · rw [h]
        exact ⟨hcn, a, ha, hname⟩
      · exact hP kv h

/-- A class with a truthy name is reachable under its exact name. -/
theorem class_key_isSome {api : Api} {c : ClassRec} {n : String}
    (hc : c ∈ api.classes) (hn : c.name = some n) (hne : n ≠ "") :
    (pyGet (buildClassIdx api).classes_by_name n).isSome := by
  unfold buildClassIdx
  refine foldl_estab processClass (fun st => (pyGet st.classes_by_name n).isSome)
    api.classes c hc ?_ ?_ emptyClassIdx
  · intro t
    simp only [processClass, hn, if_neg hne]
    rw [pyGet_insert_self]
    rfl
  · intro t a _ hP
    cases hname : a.name with
    | none => simpa only [processClass, hname] using hP
    | some cn =>
      by_cases hcn : cn = ""
      · simpa only [processClass, hname, if_pos hcn] using hP
      · simp only [processClass, hname, if_neg hcn]
        exact pyGet_insert_isSome cn a hP

/-- Every class-qualified enum binding comes from a truthy-named enum of a
truthy-named source class, under the canonical qualified key. -/
theorem class_enums_prov (api : Api) :
    ∀ kv ∈ (buildClassIdx api).class_enums_qualname,
      ∃ c N e EN, c ∈ api.classes ∧ c.name = some N ∧ N ≠ "" ∧
        e ∈ c.enums ∧ e.name = some EN ∧ EN ≠ "" ∧
        kv.1 = N ++ "." ++ EN ∧ kv.2 = e := by
  unfold buildClassIdx
  refine foldl_inv processClass
    (fun st => ∀ kv ∈ st.class_enums_qualname,
      ∃ c N e EN, c ∈ api.classes ∧ c.name = some N ∧ N ≠ "" ∧
        e ∈ c.enums ∧ e.name = some EN ∧ EN ≠ "" ∧
        kv.1 = N ++ "." ++ EN ∧ kv.2 = e)
    api.classes emptyClassIdx (by simp [emptyClassIdx]) ?_
  intro t a ha hP kv hkv
  cases hname : a.name with
  | none =>
    simp only [processClass, hname] at hkv
    exact hP kv hkv
  | some cn =>
    by_cases hcn : cn = ""
    · simp only [processClass, hname, if_pos hcn] at hkv
      exact hP kv hkv
    · simp only [processClass, hname, if_neg hcn] at hkv
      revert kv hkv
      refine foldl_inv (procEnum cn)
        (fun d => ∀ kv ∈ d,
          ∃ c N e EN, c ∈ api.classes ∧ c.name = some N ∧ N ≠ "" ∧
            e ∈ c.enums ∧ e.name = some EN ∧ EN ≠ "" ∧
            kv.1 = N ++ "." ++ EN ∧ kv.2 = e)
        a.enums t.class_enums_qualname hP ?_
      intro d e' he' hPd kv hkv
      cases hen' : e'.name with
      | none =>
        simp only [procEnum, hen'] at hkv
        exact hPd kv hkv
      | some en' =>
        by_cases hne' : en' = ""
        · simp only [procEnum, hen', if_pos hne'] at hkv
          exact hPd kv hkv
        · simp only [procEnum, hen', if_neg hne'] at hkv
          rcases mem_pyInsert hkv with h | h
          · rw [h]
            exact ⟨a, cn, e', en', ha, hname, hcn, he', hen', hne', rfl, rfl⟩
          · exact hPd kv h

/-- The canonical qualified key resolves to the enum record itself when the
class is unambiguous case-insensitively and the enum name unambiguous in its
class. -/
theorem class_enums_lookup {api : Api} {crec : ClassRec} {N : String} {e : EnumRec}
    {EN : String}
    (hc : crec ∈ api.classes) (hcn : crec.name = some N) (hN : N ≠ "")
    (he : e ∈ crec.enums) (hen : e.name = some EN) (hEN : EN ≠ "")
    (hNd : ('.' : Char) ∉ N.data) (hENd : ('.' : Char) ∉ EN.data)
    (hciU : ∀ c' ∈ api.classes, ∀ N', c'.name = some N' → N' ≠ "" →
      pyLower N' = pyLower N → c' = crec)
    (henU : ∀ e' ∈ crec.enums, e'.name = some EN → e' = e) :
    pyGet (buildClassIdx api).class_enums_qualname (N ++ "." ++ EN) = some e := by
  unfold buildClassIdx
  refine foldl_estab processClass
    (fun st => pyGet st.class_enums_qualname (N ++ "." ++ EN) = some e)
    api.classes crec hc ?_ ?_ emptyClassIdx
  · intro t
    simp only [processClass, hcn, if_neg hN]
    refine foldl_estab (procEnum N) (fun d => pyGet d (N ++ "." ++ EN) = some e)
      crec.enums e he ?_ ?_ t.class_enums_qualname
    · intro d
      simp only [procEnum, hen, if_neg hEN]
      exact pyGet_insert_self d (N ++ "." ++ EN) e
    · intro d e' he' hPd
      cases hen' : e'.name with
      | none => simpa only [procEnum, hen'] using hPd
      | some en' =>
        by_cases hne' : en' = ""
        · simpa only [procEnum, hen', if_pos hne'] using hPd
        · simp only [procEnum, hen', if_neg hne']
          by_cases hkey : (N ++ "." ++ en' : String) = N ++ "." ++ EN
          · obtain ⟨-, h2⟩ := str_dot_decomp hNd hENd hkey.symm
            have he'2 : e' = e := henU e' he' (by rw [hen', ← h2])
            rw [he'2, hkey]
            exact pyGet_insert_self d (N ++ "." ++ EN) e
          · rw [pyGet_insert_ne d (N ++ "." ++ en') (N ++ "." ++ EN) e'
              (fun hh => hkey hh.symm)]
            exact hPd
  · intro t a ha hP
    cases hname : a.name with
    | none => simpa only [processClass, hname] using hP
    | some cn =>
      by_cases hcn' : cn = ""
      · simpa only [processClass, hname, if_pos hcn'] using hP
      · simp only [processClass, hname, if_neg hcn']
        refine foldl_inv (procEnum cn) (fun d => pyGet d (N ++ "." ++ EN) = some e)
          a.enums t.class_enums_qualname hP ?_
        intro d e' he' hPd
        cases hen' : e'.name with
        | none => simpa only [procEnum, hen'] using hPd
        | some en' =>
          by_cases hne' : en' = ""
          · simpa only [procEnum, hen', if_pos hne'] using hPd
          · simp only [procEnum, hen', if_neg hne']
            by_cases hkey : (cn ++ "." ++ en' : String) = N ++ "." ++ EN
            · obtain ⟨h1, h2⟩ := str_dot_decomp hNd hENd hkey.symm
              have hac : a = crec := hciU a ha cn hname hcn' (by rw [h1])
              have he'2 : e' = e := henU e' (hac ▸ he') (by rw [hen', ← h2])
              rw [he'2, hkey]
              exact pyGet_insert_self d (N ++ "." ++ EN) e
            · rw [pyGet_insert_ne d (cn ++ "." ++ en') (N ++ "." ++ EN) e'
                (fun hh => hkey hh.symm)]
              exact hPd

/-- A key no source class-enum pair generates is absent. -/
theorem class_enums_no_key {api : Api} {key : String}
    (hno : ∀ c N e EN, c ∈ api.classes → c.name = some N → N ≠ "" → e ∈ c.enums →
      e.name = some EN → EN ≠ "" → key ≠ N ++ "." ++ EN) :
    pyGet (buildClassIdx api).class_enums_qualname key = none := by
  cases hh : pyGet (buildClassIdx api).class_enums_qualname key with
  | none => rfl
  | some v =>
    obtain ⟨c, N, e, EN, hc, hcn, hN, he, hen, hEN, hkey, -⟩ :=
      class_enums_prov api (key, v) (pyGet_mem hh)
    exact absurd hkey (hno c N e EN hc hcn hN he hen hEN)

/- ----------------------------------------------------------------- -/
/- Helper lemmas: the hash index.                                     -/
/- ----------------------------------------------------------------- -/

theorem memD_compat_fold {cname : String} {k : String} {x : String × MethodRec}
    {m : MethodRec} (hs : List Int)
    (d0 : PyDict (List (String × MethodRec))) (h : memD d0 k x) :
    memD (hs.foldl (fun d hcv => pyInsertAppend d (toString hcv) (cname, m)) d0) k x :=
  foldl_inv _ (fun d => memD d k x) hs d0 h
    (fun t a _ ht => memD_insertAppend_mono _ _ ht)

theorem procMethod_memD_mono (cname : String)
    (st : PyDict (List (String × MethodRec)) × PyDict (List (String × MethodRec)))
    (k : String) (x : String × MethodRec) (m : MethodRec) (h : memD st.2 k x) :
    memD (procMethod cname st m).2 k x := by
  cases hname : m.name with
  | none => simpa only [procMethod, hname] using h
  | some mn =>
    by_cases hmn : mn = ""
    · simpa only [procMethod, hname, if_pos hmn] using h
    · simp only [procMethod, hname, if_neg hmn]
      have h1 : memD (match m.hash with
          | some hv => pyInsertAppend st.2 (toString hv) (cname, m)
          | none => st.2) k x := by
        cases m.hash with
        | none => exact h
        | some hv => exact memD_insertAppend_mono _ _ h
      cases m.hash_compatibility with
      | absent => exact h1
      | scalar hv => exact memD_insertAppend_mono _ _ h1
      | list hs => exact memD_compat_fold hs _ h1

theorem procMethod_estab {C : String} {m : MethodRec} {mn : String}
    (hmn : m.name = some mn) (hmn' : mn ≠ "") {hv : Int} (hh : m.hash = some hv)
    {compat : List Int} (hhc : m.hash_compatibility = HashCompat.list compat)
    {h' : Int} (hmem : h' ∈ hv :: compat) :
    ∀ st, memD (procMethod C st m).2 (toString h') (C, m) := by
  intro st
  simp only [procMethod, hmn, if_neg hmn', hh, hhc]
  rcases List.mem_cons.mp hmem with h0 | h0
  · subst h0
    exact memD_compat_fold compat _ (memD_insertAppend_self _ _ _)
  · refine foldl_estab _ (fun d => memD d (toString h') (C, m)) compat h' h0 ?_ ?_ _
    · intro d
      exact memD_insertAppend_self _ _ _
    · intro d a _ hd
      exact memD_insertAppend_mono _ _ hd

theorem methods_hash_mem {api : Api} {crec : ClassRec} {C : String} {m : MethodRec}
    {mn : String} {hv : Int} {compat : List Int} {h' : Int}
    (hc : crec ∈ api.classes) (hcn : crec.name = some C) (hC : C ≠ "")
    (hm : m ∈ crec.methods) (hmn : m.name = some mn) (hmn' : mn ≠ "")
    (hh : m.hash = some hv) (hhc : m.hash_compatibility = HashCompat.list compat)
    (hmem : h' ∈ hv :: compat) :
    memD (buildClassIdx api).methods_by_hash (toString h') (C, m) := by
  unfold buildClassIdx
  refine foldl_estab processClass
    (fun st => memD st.methods_by_hash (toString h') (C, m))
    api.classes crec hc ?_ ?_ emptyClassIdx
  · intro t
    simp only [processClass, hcn, if_neg hC]
    refine foldl_estab (procMethod C) (fun p => memD p.2 (toString h') (C, m))
      crec.methods m hm ?_ ?_ (t.methods_by_name, t.methods_by_hash)
    · intro p
      exact procMethod_estab hmn hmn' hh hhc hmem p
    · intro p a _ hp
      exact procMethod_memD_mono C p (toString h') (C, m) a hp
  · intro t a _ hP
    cases hname : a.name with
    | none => simpa only [processClass, hname] using hP
    | some cn =>
      by_cases hcn' : cn = ""
      · simpa only [processClass, hname, if_pos hcn'] using hP
      · simp only [processClass, hname, if_neg hcn']
        refine foldl_inv (procMethod cn) (fun p => memD p.2 (toString h') (C, m))
          a.methods (t.methods_by_name, t.methods_by_hash) hP ?_
        intro p b _ hp
        exact procMethod_memD_mono cn p (toString h') (C, m) b hp

/- ----------------------------------------------------------------- -/
/- Helper lemmas: _extract_known.                                     -/
/- ----------------------------------------------------------------- -/

theorem strMkData (s : String) : String.mk s.data = s := rfl

/-- If Color is a known name, no known name is empty, and no other known
name is a casing variant of Color, then scanning the single word Color
returns exactly Color. -/
theorem extract_known_color {names : List String} (hmem : "Color" ∈ names)
    (hne : ∀ k ∈ names, k ≠ "")
    (huniq : ∀ k ∈ names, pyLower k = pyLower "Color" → k = "Color") :
    extract_known "Color" names = some "Color" := by
  unfold extract_known
  refine find_eq_some_unique (mem_sortByLenDesc.mpr hmem) (by decide) ?_
  intro b hb hpb
  have hbn : b ∈ names := mem_sortByLenDesc.mp hb
  have hbne : b.data ≠ [] := fun hh => (hne b hbn) (str_data_nil_iff.mp hh)
  have hmap := searchWordCI_allword hbne (by decide) hpb
  exact huniq b hbn (congrArg String.mk hmap)

theorem extract_known_isSome {q : String} {names : List String} {a : String}
    (ha : a ∈ names) (hp : searchWordCI a.data q.data = true) :
    ∃ bn, extract_known q names = some bn := by
  obtain ⟨b, hb, -⟩ := find_exists (p := fun nm => searchWordCI nm.data q.data)
    (mem_sortByLenDesc.mpr ha) hp
  exact ⟨b, hb⟩

/-- The case-insensitive scan over the class keys lands on the canonical
name when the class resolves unambiguously. -/
theorem classes_find_canonical {api : Api} {crec : ClassRec} {N Cvar : String}
    (hc : crec ∈ api.classes) (hcn : crec.name = some N) (hN : N ≠ "")
    (hlow : pyLower Cvar = pyLower N)
    (hciU : ∀ c' ∈ api.classes, ∀ N', c'.name = some N' → N' ≠ "" →
      pyLower N' = pyLower N → c' = crec) :
    (dictKeys (build_indexes api).classes_by_name).find?
      (fun k => pyLower k == pyLower Cvar) = some N := by
  apply find_eq_some_unique
  · rw [mem_keys_iff_pyGet, build_classes_eq]
    exact class_key_isSome hc hcn hN
  · simp [hlow]
  · intro b hb hpb
    rw [build_classes_eq, mem_keys_iff_pyGet] at hb
    cases hv : pyGet (buildClassIdx api).classes_by_name b with
    | none => rw [hv] at hb; simp at hb
    | some v =>
      obtain ⟨hbne, c', hc', hcn'⟩ := classes_prov api (b, v) (pyGet_mem hv)
      have hbeq : pyLower b = pyLower Cvar := by simpa using hpb
      have hcc : c' = crec := hciU c' hc' b hcn' hbne (hbeq.trans hlow)
      have hnb : crec.name = some b := hcc ▸ hcn'
      rw [hcn] at hnb
      exact (Option.some.inj hnb).symm

/- ----------------------------------------------------------------- -/
/- The claims.                                                        -/
/- ----------------------------------------------------------------- -/

/-- Claim C4: for every name-keyed accessor with case-insensitive fallback
(get_class, get_global_enum, get_global_constant, find_utility by name,
get_builtin), an exactly matching key returns the exactly matching record
even when case-differing keys exist; the case-insensitive scan is reached
only when no exact key exists, which the exact-first structure of each
accessor realises. -/
theorem exact_match_precedence (ix : Indexes) (n1 n2 n3 n4 n5 : String)
    (c : ClassRec) (e : EnumRec) (gc : GlobalConstantRec) (u : UtilityRec)
    (b : BuiltinClassRec) :
    (pyGet ix.classes_by_name n1 = some c → get_class ix n1 = some c) ∧
    (pyGet ix.global_enums_by_name n2 = some e →
      get_global_enum ix n2 =
        some { name := n2, values := e.values.map (fun v => v.name) }) ∧
    (pyGet ix.global_constants_by_name n3 = some gc →
      get_global_constant ix n3 = some gc) ∧
    (pyGet ix.utility_by_name n4 = some u →
      find_utility_name ix n4 = some (utility_out n4 u)) ∧
    (pyGet ix.builtin_classes_by_name n5 = some b →
      get_builtin ix n5 = some (mk_builtin_out b)) := by
  refine ⟨fun h => ?_, fun h => ?_, fun h => ?_, fun h => ?_, fun h => ?_⟩
  · simp [get_class, h]
  · simp [get_global_enum, h]
  · simp [get_global_constant, h]
  · simp [find_utility_name, h]
  · simp [get_builtin, resolve_builtin_name, h]

/-- Witness for C4 on a schema where every index also holds a
case-differing sibling of the queried key. -/
theorem exact_match_precedence_witness :
    get_class (build_indexes apiW4) "NODE" = some classW4b ∧
    get_global_enum (build_indexes apiW4) "CORNER" =
      some { name := "CORNER", values := [some "X"] } ∧
    get_global_constant (build_indexes apiW4) "ok" = some gconstW4b ∧
    find_utility_name (build_indexes apiW4) "SIN" =
      some (utility_out "SIN" utilW4b) ∧
    get_builtin (build_indexes apiW4) "COLOR" =
      some (mk_builtin_out builtinW4b) := by
  obtain ⟨h1, h2, h3, h4, h5⟩ := exact_match_precedence (build_indexes apiW4)
    "NODE" "CORNER" "ok" "SIN" "COLOR" classW4b enumW4b gconstW4b utilW4b builtinW4b
  exact ⟨h1 rfl, (h2 rfl).trans rfl, h3 rfl, h4 rfl, h5 rfl⟩

/-- Claim C5: get_builtin_layout is none exactly when the resolved pair has
neither a recorded size nor any recorded offsets; a size with no offset
entries still yields a layout with an empty member list, and offsets with
no recorded size yield a layout whose size is none. -/
theorem builtin_layout_none_iff (ix : Indexes) (name config : String) :
    (get_builtin_layout ix name config = none ↔
      layout_size ix name config = none ∧
      pyFalsyList (layout_members ix name config) = true) ∧
    (∀ s, layout_size ix name config = some s →
      pyFalsyList (layout_members ix name config) = true →
      get_builtin_layout ix name config =
        some { cls := resolve_builtin_key ix name, config := config,
               size := some s, members := [] }) ∧
    (∀ l, layout_members ix name config = some l → l ≠ [] →
      layout_size ix name config = none →
      get_builtin_layout ix name config =
        some { cls := resolve_builtin_key ix name, config := config,
               size := none, members := l }) := by
  refine ⟨?_, ?_, ?_⟩
  · unfold get_builtin_layout
    by_cases hc : ((layout_size ix name config).isNone &&
        pyFalsyList (layout_members ix name config)) = true
    · rw [if_pos hc]
      simp only [Bool.and_eq_true, Option.isNone_iff_eq_none] at hc
      simp [hc]
    · rw [if_neg hc]
      simp only [Bool.and_eq_true, Option.isNone_iff_eq_none] at hc
      simp only [not_and] at hc
      constructor
      · intro hh; cases hh
      · intro ⟨hs, hm⟩
        exact absurd hm (hc hs)
  · intro s hs hm
    have hgd : (layout_members ix name config).getD [] = [] := by
      cases hmm : layout_members ix name config with
      | none => rfl
      | some l =>
        rw [hmm] at hm
        simp only [pyFalsyList, List.isEmpty_iff] at hm
        simp [hm]
    simp [get_builtin_layout, hs, hgd]
  · intro l hl hlne hs
    have hfl : pyFalsyList (some l) = false := by
      simp [pyFalsyList, List.isEmpty_iff, hlne]
    simp [get_builtin_layout, hs, hl, hfl]

/-- Witness for C5: a size-only builtin gives an empty-member layout, an
offsets-only builtin gives a size-less layout, and an unknown name gives
none together with the none-valued lookups the iff requires. -/
theorem builtin_layout_none_iff_witness :
    get_builtin_layout (build_indexes apiW5) "Opaque" "float_32" =
      some { cls := some "Opaque", config := "float_32", size := some 8,
             members := [] } ∧
    get_builtin_layout (build_indexes apiW5) "Off" "float_32" =
      some { cls := some "Off", config := "float_32", size := none,
             members := offEntriesW5 } ∧
    get_builtin_layout (build_indexes apiW5) "Nope" "float_32" = none := by
  refine ⟨?_, ?_, ?_⟩
  · exact (builtin_layout_none_iff (build_indexes apiW5) "Opaque" "float_32").2.1
      8 rfl rfl
  · exact (builtin_layout_none_iff (build_indexes apiW5) "Off" "float_32").2.2
      offEntriesW5 rfl (by decide) rfl
  · exact (builtin_layout_none_iff (build_indexes apiW5) "Nope" "float_32").1.mpr
      ⟨rfl, rfl⟩

/-- Claim C6: for every known builtin name (resolved case-insensitively),
get_builtin returns a record that always carries name, is_keyed and
has_destructor, and carries each of members, constants, constructors,
operators, methods exactly when the source list is present and non-empty;
an included section is never an empty list. -/
theorem builtin_sections_presence (ix : Indexes) (name : String)
    (b : BuiltinClassRec) (h : resolve_builtin_name ix name = some b) :
    get_builtin ix name = some (mk_builtin_out b) ∧
    (mk_builtin_out b).name = b.name ∧
    (mk_builtin_out b).is_keyed = b.is_keyed ∧
    (mk_builtin_out b).has_destructor = b.has_destructor ∧
    ((mk_builtin_out b).members.isSome ↔ ∃ l, b.members = some l ∧ l ≠ []) ∧
    (mk_builtin_out b).members ≠ some [] ∧
    ((mk_builtin_out b).constants.isSome ↔ ∃ l, b.constants = some l ∧ l ≠ []) ∧
    (mk_builtin_out b).constants ≠ some [] ∧
    ((mk_builtin_out b).constructors.isSome ↔
      ∃ l, b.constructors = some l ∧ l ≠ []) ∧
    (mk_builtin_out b).constructors ≠ some [] ∧
    ((mk_builtin_out b).operators.isSome ↔ ∃ l, b.operators = some l ∧ l ≠ []) ∧
    (mk_builtin_out b).operators ≠ some [] ∧
    ((mk_builtin_out b).methods.isSome ↔ ∃ l, b.methods = some l ∧ l ≠ []) ∧
    (mk_builtin_out b).methods ≠ some [] := by
  refine ⟨by simp [get_builtin, h], rfl, rfl, rfl, ?_, ?_, ?_, ?_, ?_, ?_, ?_, ?_,
    ?_, ?_⟩
  · cases hb : b.members with
    | none => simp [mk_builtin_out, hb]
    | some l => cases l with
      | nil => simp [mk_builtin_out, hb]
      | cons x xs => simp [mk_builtin_out, hb]
  · cases hb : b.members with
    | none => simp [mk_builtin_out, hb]
    | some l => cases l with
      | nil => simp [mk_builtin_out, hb]
      | cons x xs => simp [mk_builtin_out, hb]
  · cases hb : b.constants with
    | none => simp [mk_builtin_out, hb]
    | some l => cases l with
      | nil => simp [mk_builtin_out, hb]
      | cons x xs => simp [mk_builtin_out, hb]
  · cases hb : b.constants with
    | none => simp [mk_builtin_out, hb]
    | some l => cases l with
      | nil => simp [mk_builtin_out, hb]
      | cons x xs => simp [mk_builtin_out, hb]
  · cases hb : b.constructors with
    | none => simp [mk_builtin_out, hb]
    | some l => cases l with
      | nil => simp [mk_builtin_out, hb]
      | cons x xs => simp [mk_builtin_out, hb]
  · cases hb : b.constructors with
    | none => simp [mk_builtin_out, hb]
    | some l => cases l with
      | nil => simp [mk_builtin_out, hb]
      | cons x xs => simp [mk_builtin_out, hb]
  · cases hb : b.operators with
    | none => simp [mk_builtin_out, hb]
    | some l => cases l with
      | nil => simp [mk_builtin_out, hb]
      | cons x xs => simp [mk_builtin_out, hb]
  · cases hb : b.operators with
    | none => simp [mk_builtin_out, hb]
    | some l => cases l with
      | nil => simp [mk_builtin_out, hb]
      | cons x xs => simp [mk_builtin_out, hb]
  · cases hb : b.methods with
    | none => simp [mk_builtin_out, hb]
    | some l => cases l with
      | nil => simp [mk_builtin_out, hb]
      | cons x xs => simp [mk_builtin_out, hb]
  · cases hb : b.methods with
    | none => simp [mk_builtin_out, hb]
    | some l => cases l with
      | nil => simp [mk_builtin_out, hb]
      | cons x xs => simp [mk_builtin_out, hb]

/-- Witness for C6 at a builtin whose members list is present and
non-empty, whose constants list is present but empty, and whose other
sections are absent, queried in non-canonical casing. -/
theorem builtin_sections_presence_witness :
    get_builtin (build_indexes colorApiW) "color" =
      some (mk_builtin_out colorBuiltinW) ∧
    (mk_builtin_out colorBuiltinW).members =
      some [{ name := some "r", type := some "float" }] ∧
    (mk_builtin_out colorBuiltinW).constants = none ∧
    (mk_builtin_out colorBuiltinW).methods = none := by
  refine ⟨(builtin_sections_presence (build_indexes colorApiW) "color"
    colorBuiltinW rfl).1, rfl, rfl, rfl⟩

/-- Claim C7: route always produces a result (it is a total function by
construction), and whenever none of the six pattern rules produces a
result the outcome is the help action carrying the fixed hint list. -/
theorem route_total_help (ix : Indexes) (q : String) :
    ∃ r, route ix q = r ∧
      (rule1 ix q = none → rule2 ix q = none → rule3 ix q = none →
       rule4 ix q = none → rule5 ix q = none → rule6 ix q = none →
       r = RouteResult.help help_hints) := by
  refine ⟨route ix q, rfl, ?_⟩
  intro h1 h2 h3 h4 h5 h6
  simp [route, h1, h2, h3, h4, h5, h6]

/-- Witness for C7: an input triggering no rule yields the help action. -/
theorem route_total_help_witness :
    route (build_indexes apiEmptyW) "ola" = RouteResult.help help_hints := by
  obtain ⟨r, hr, h⟩ := route_total_help (build_indexes apiEmptyW) "ola"
  exact hr.trans (h rfl rfl rfl rfl rfl rfl)

/-- Claim C8: when the method rule is reached (method keyword present, no
earlier rule fired), the returned method_by_name action carries the first
word token of the whole query — for a query beginning with the keyword the
candidate name is the keyword itself. -/
theorem method_rule_first_token (ix : Indexes) (q : String) (g : List Char)
    (h1 : rule1 ix q = none) (h2 : rule2 ix q = none) (h3 : rule3 ix q = none)
    (h4 : rule4 ix q = none) (h5 : rule5 ix q = none)
    (htrig : methodTrigger (pyLower q) = true)
    (htok : firstWordSearch none q.data = some g) :
    route ix q = RouteResult.method_by_name (String.mk g)
      (find_methods ix (String.mk g) none) := by
  simp [route, h1, h2, h3, h4, h5, rule6, htrig, htok]

/-- Witness for C8: routing the query method add_child yields the
candidate name method, the keyword itself. -/
theorem method_rule_first_token_witness :
    route (build_indexes apiEmptyW) "method add_child" =
      RouteResult.method_by_name "method" [] :=
  (method_rule_first_token (build_indexes apiEmptyW) "method add_child"
    "method".data rfl rfl rfl rfl rfl (by decide) rfl).trans rfl

/-- Claim C9: when a layout/size/offset trigger and a known builtin name
are present but the member-offset sub-branch yields nothing (no dotted
pair, unknown member, or no recorded offset), route falls through to the
builtin_layout action whenever the matched builtin has a layout. -/
theorem offset_fallthrough_layout (ix : Indexes) (q : String) (bn : String)
    (lay : Layout)
    (htrig : layoutTrigger (pyLower q) = true)
    (hbn : extract_known q (dictKeys ix.builtin_classes_by_name) = some bn)
    (hoff : rule1_offset ix q = none)
    (hlay : get_builtin_layout ix bn "float_32" = some lay) :
    route ix q = RouteResult.builtin_layout bn lay.config lay := by
  have hr1 : rule1 ix q = some (RouteResult.builtin_layout bn lay.config lay) := by
    simp [rule1, htrig, hbn, hoff, hlay]
  simp [route, hr1]

/-- Witness for C9: an offset query naming an unknown member of Color falls
through to Color's layout. -/
theorem offset_fallthrough_layout_witness :
    route (build_indexes colorApiW) "offset de Color.zz" =
      RouteResult.builtin_layout "Color" "float_32" colorLayoutW :=
  offset_fallthrough_layout (build_indexes colorApiW) "offset de Color.zz"
    "Color" colorLayoutW (by decide) rfl rfl rfl

/-- Claim C2: a truthy-named method of a truthy-named class with a primary
hash and a compatibility-hash list of N entries is found by
find_method_by_hash under each of the N+1 hash values, and the lookup key
being the hash's string representation, an integer argument and its
decimal-string form give the same result. -/
theorem methods_by_hash_aliases (api : Api) (crec : ClassRec) (C : String)
    (m : MethodRec) (mn : String) (hv : Int) (compat : List Int)
    (hc : crec ∈ api.classes) (hcn : crec.name = some C) (hC : C ≠ "")
    (hm : m ∈ crec.methods) (hmn : m.name = some mn) (hmn' : mn ≠ "")
    (hh : m.hash = some hv) (hhc : m.hash_compatibility = HashCompat.list compat) :
    (∀ h', h' ∈ hv :: compat →
      sig_dict C m ∈ find_method_by_hash (build_indexes api) (HashArg.int h')) ∧
    (∀ h', find_method_by_hash (build_indexes api) (HashArg.int h') =
      find_method_by_hash (build_indexes api) (HashArg.str (toString h'))) := by
  constructor
  · intro h' hmem
    have hmd := methods_hash_mem hc hcn hC hm hmn hmn' hh hhc hmem
    rw [← build_methods_hash_eq] at hmd
    obtain ⟨l, hl, hx⟩ := hmd
    simp only [find_method_by_hash, HashArg.toStr, hl, Option.getD_some]
    exact List.mem_map_of_mem _ hx
  · intro h'
    rfl

/-- Witness for C2: the method with primary hash 7 and compatibility
aliases 8 and 9 resolves under the alias 8, given as an integer and as the
string 8 alike. -/
theorem methods_by_hash_aliases_witness :
    sig_dict "Node" methW2 ∈
      find_method_by_hash (build_indexes apiW2) (HashArg.int 8) ∧
    find_method_by_hash (build_indexes apiW2) (HashArg.int 8) =
      find_method_by_hash (build_indexes apiW2) (HashArg.str "8") := by
  obtain ⟨h1, h2⟩ := methods_by_hash_aliases apiW2 classW2 "Node" methW2
    "add_child" 7 [8, 9] (List.mem_cons_self _ _) rfl (by decide)
    (List.mem_cons_self _ _) rfl (by decide) rfl rfl
  exact ⟨h1 8 (by decide), (h2 8).trans rfl⟩

/-- Claim C1: on a schema where Color is a known builtin with a recorded
offset for member a under float_32, and no other builtin name is a casing
variant of Color, routing the query offset de Color.a yields the
builtin_member_offset action carrying that offset and never the class_enum
action, although the query contains a dotted pair. -/
theorem route_offset_color_member (api : Api) (off : Int)
    (hkey : (pyGet (build_indexes api).builtin_classes_by_name "Color").isSome)
    (huniq : ∀ k ∈ dictKeys (build_indexes api).builtin_classes_by_name,
      pyLower k = pyLower "Color" → k = "Color")
    (hoff : get_builtin_member_offset (build_indexes api) "Color" "a" "float_32" =
      some off) :
    route (build_indexes api) "offset de Color.a" =
      RouteResult.builtin_member_offset "float_32" "Color" "a" off ∧
    ∀ qual res, route (build_indexes api) "offset de Color.a" ≠
      RouteResult.class_enum qual res := by
  have hmemK : "Color" ∈ dictKeys (build_indexes api).builtin_classes_by_name :=
    (mem_keys_iff_pyGet _ _).mpr hkey
  have hne : ∀ k ∈ dictKeys (build_indexes api).builtin_classes_by_name, k ≠ "" := by
    intro k hk
    rw [mem_keys_iff_pyGet] at hk
    cases hv : pyGet (build_indexes api).builtin_classes_by_name k with
    | none => rw [hv] at hk; simp at hk
    | some v => exact (builtin_prov api (k, v) (pyGet_mem hv)).1
  have hex : extract_known "Color"
      (dictKeys (build_indexes api).builtin_classes_by_name) = some "Color" :=
    extract_known_color hmemK hne huniq
  have hpq : searchWordCI "Color".data ("offset de Color.a").data = true := by decide
  obtain ⟨bn, hbn⟩ := extract_known_isSome hmemK hpq
  have hcond : (pyIn "offset" (pyLower "offset de Color.a") &&
      pyIn "." "offset de Color.a") = true := by decide
  have hm3 : dotPairSearch true true none ("offset de Color.a").data =
      some ("Color".data, "a".data) := by decide
  have hro : rule1_offset (build_indexes api) "offset de Color.a" =
      some (RouteResult.builtin_member_offset "float_32" "Color" "a" off) := by
    unfold rule1_offset
    rw [if_pos hcond, hm3]
    simp only [strMkData, hex, pyOrStr]
    rw [if_neg (by decide : ¬("Color" = ""))]
    rw [hoff]
  have htrig : layoutTrigger (pyLower "offset de Color.a") = true := by decide
  have hr1 : rule1 (build_indexes api) "offset de Color.a" =
      some (RouteResult.builtin_member_offset "float_32" "Color" "a" off) := by
    unfold rule1
    rw [if_pos htrig, hbn, hro]
  have hmain : route (build_indexes api) "offset de Color.a" =
      RouteResult.builtin_member_offset "float_32" "Color" "a" off := by
    simp [route, hr1]
  refine ⟨hmain, fun qual res hcontra => ?_⟩
  rw [hmain] at hcontra
  exact RouteResult.noConfusion hcontra

/-- Witness for C1 on the Color schema, where the recorded offset of
Color.a under float_32 is 12. -/
theorem route_offset_color_member_witness :
    route (build_indexes colorApiW) "offset de Color.a" =
      RouteResult.builtin_member_offset "float_32" "Color" "a" 12 :=
  (route_offset_color_member colorApiW 12 rfl (by decide) rfl).1

/-- Claim C3: an enum EN nested in a class of canonical name N registers
exactly under the key N.EN with the canonical class casing, and querying
get_class_enum with any casing variant of N before the dot and the exact
enum name after it returns the same value-name list as the enum record
itself, under the canonical key name. -/
theorem class_enum_qualified_key (api : Api) (crec : ClassRec) (N : String)
    (e : EnumRec) (EN Cvar : String)
    (hc : crec ∈ api.classes) (hcn : crec.name = some N) (hN : N ≠ "")
    (he : e ∈ crec.enums) (hen : e.name = some EN) (hEN : EN ≠ "")
    (hNd : ('.' : Char) ∉ N.data) (hENd : ('.' : Char) ∉ EN.data)
    (hCvd : ('.' : Char) ∉ Cvar.data)
    (hlow : pyLower Cvar = pyLower N)
    (hciU : ∀ c' ∈ api.classes, ∀ N', c'.name = some N' → N' ≠ "" →
      pyLower N' = pyLower N → c' = crec)
    (henU : ∀ e' ∈ crec.enums, e'.name = some EN → e' = e) :
    (N ++ "." ++ EN) ∈ dictKeys (build_indexes api).class_enums_qualname ∧
    get_class_enum (build_indexes api) (Cvar ++ "." ++ EN) =
      some { name := N ++ "." ++ EN,
             values := e.values.map (fun v => v.name) } := by
  have hlookup : pyGet (build_indexes api).class_enums_qualname (N ++ "." ++ EN) =
      some e := by
    rw [build_class_enums_eq]
    exact class_enums_lookup hc hcn hN he hen hEN hNd hENd hciU henU
  have hkeymem : (N ++ "." ++ EN) ∈
      dictKeys (build_indexes api).class_enums_qualname := by
    rw [mem_keys_iff_pyGet, hlookup]
    rfl
  refine ⟨hkeymem, ?_⟩
  by_cases hCv : Cvar = N
  · subst hCv
    simp only [get_class_enum, hlookup]
  · have hmiss : pyGet (build_indexes api).class_enums_qualname
        (Cvar ++ "." ++ EN) = none := by
      rw [build_class_enums_eq]
      apply class_enums_no_key
      intro c' N' e' EN' hc' hcn' hN' he' hen' hEN'
      intro hkeyeq
      obtain ⟨h1, h2⟩ := str_dot_decomp hCvd hENd hkeyeq
      have hcc : c' = crec := hciU c' hc' N' hcn' hN' (by rw [← h1, hlow])
      have hnn : crec.name = some N' := hcc ▸ hcn'
      rw [hcn] at hnn
      exact hCv (h1.trans (Option.some.inj hnn).symm)
    have hsplit : pySplitDot (Cvar ++ "." ++ EN) = [Cvar, EN] :=
      pySplitDot_pair hCvd hENd
    have hfind := classes_find_canonical hc hcn hN hlow hciU
    simp only [get_class_enum, hmiss, hsplit, hfind, hlookup]

/-- Witness for C3: class Control with nested enum Layout, queried as
control.Layout, returns the canonical Control.Layout and its value
names. -/
theorem class_enum_qualified_key_witness :
    ("Control" ++ "." ++ "Layout") ∈
      dictKeys (build_indexes apiW3).class_enums_qualname ∧
    get_class_enum (build_indexes apiW3) ("control" ++ "." ++ "Layout") =
      some { name := "Control" ++ "." ++ "Layout",
             values := [some "TOP", some "FULL"] } := by
  obtain ⟨h1, h2⟩ := class_enum_qualified_key apiW3 classW3 "Control" enumW3
    "Layout" "control" (List.mem_cons_self _ _) rfl (by decide)
    (List.mem_cons_self _ _) rfl (by decide) (by decide) (by decide) (by decide)
    (by decide)
    (by
      intro c' hc' N' hname hne hlw
      simpa [apiW3] using hc')
    (by
      intro e' he' hname
      simpa [classW3] using he')
  exact ⟨h1, h2.trans rfl⟩

/-- Claim C10: the case-insensitive fallback of get_class_enum covers only
the class part of the qualified name: for a class C with nested enum E,
a query whose enum part is a proper casing variant of E returns none even
though its class part resolves under any casing (provided C has no enum
literally spelled that way). -/
theorem class_enum_case_sensitive_member (api : Api) (crec : ClassRec)
    (N : String) (e : EnumRec) (EN Evar Cvar : String)
    (hc : crec ∈ api.classes) (hcn : crec.name = some N) (hN : N ≠ "")
    (he : e ∈ crec.enums) (hen : e.name = some EN) (hEN : EN ≠ "")
    (hNd : ('.' : Char) ∉ N.data) (hEvd : ('.' : Char) ∉ Evar.data)
    (hCvd : ('.' : Char) ∉ Cvar.data)
    (hlowC : pyLower Cvar = pyLower N)
    (hlowE : pyLower Evar = pyLower EN) (hneE : Evar ≠ EN)
    (hciU : ∀ c' ∈ api.classes, ∀ N', c'.name = some N' → N' ≠ "" →
      pyLower N' = pyLower N → c' = crec)
    (hnoE : ∀ e' ∈ crec.enums, e'.name ≠ some Evar) :
    get_class_enum (build_indexes api) (Cvar ++ "." ++ Evar) = none := by
  have hmiss : pyGet (build_indexes api).class_enums_qualname
      (Cvar ++ "." ++ Evar) = none := by
    rw [build_class_enums_eq]
    apply class_enums_no_key
    intro c' N' e' EN' hc' hcn' hN' he' hen' hEN'
    intro hkeyeq
    obtain ⟨h1, h2⟩ := str_dot_decomp hCvd hEvd hkeyeq
    have hcc : c' = crec := hciU c' hc' N' hcn' hN' (by rw [← h1, hlowC])
    have : e' ∈ crec.enums := hcc ▸ he'
    exact hnoE e' this (by rw [hen', ← h2])
  have hmiss2 : pyGet (build_indexes api).class_enums_qualname
      (N ++ "." ++ Evar) = none := by
    rw [build_class_enums_eq]
    apply class_enums_no_key
    intro c' N' e' EN' hc' hcn' hN' he' hen' hEN'
    intro hkeyeq
    obtain ⟨h1, h2⟩ := str_dot_decomp hNd hEvd hkeyeq
    have hcc : c' = crec := hciU c' hc' N' hcn' hN' (by rw [← h1])
    have : e' ∈ crec.enums := hcc ▸ he'
    exact hnoE e' this (by rw [hen', ← h2])
  have hsplit : pySplitDot (Cvar ++ "." ++ Evar) = [Cvar, Evar] :=
    pySplitDot_pair hCvd hEvd
  have hfind := classes_find_canonical hc hcn hN hlowC hciU
  simp only [get_class_enum, hmiss, hsplit, hfind, hmiss2]

/-- Witness for C10: class Node with enum Mode; the query node.mode
resolves the class part case-insensitively but still returns none for the
case-differing enum part. -/
theorem class_enum_case_sensitive_member_witness :
    get_class_enum (build_indexes apiW10) ("node" ++ "." ++ "mode") = none :=
  class_enum_case_sensitive_member apiW10 classW10 "Node" enumW10 "Mode"
    "mode" "node" (List.mem_cons_self _ _) rfl (by decide)
    (List.mem_cons_self _ _) rfl (by decide) (by decide) (by decide) (by decide)
    (by decide) (by decide) (by decide)
    (by
      intro c' hc' N' hname hne hlw
      simpa [apiW10] using hc')
    (by
      intro e' he' hname
      have he2 : e' = enumW10 := by simpa [classW10] using he'
      rw [he2] at hname
      simp [enumW10] at hname)
